import Mathlib

/-!
# decimal128: the transcendental layer (`exp.go`) and the compose/decompose contract

A shallow embedding of `Exp`, `Exp2`, `Exp10`, `Log`, `Log2`, `Log10` and `Sqrt`
of `exp.go`.  Machine integers are `Nat`/`Int` with the wrap-around written out
(`uint`, `int16`, `% 2 ^ 128`, ...).  The extended-precision arithmetic
(`mul`, `quo`, `add`, `epow`, `log`), the rounding engine (`reduce128`), the
magnitude estimate `log10`, the high-precision constants and `maxDigits` live in
other files of the package; the functions of `exp.go` take them as the record
`Helpers`.
-/

namespace decimal128

/-! ## Parameters of the format -/

/-- Modelled from the spec: the decimal128 exponent bias. -/
def exponentBias : Nat := 6176

/-- Modelled from the spec: the largest biased exponent. -/
def maxBiasedExponent : Nat := 12287

/-- Modelled from the spec: the largest unbiased exponent,
`maxBiasedExponent - exponentBias`. -/
def maxUnbiasedExponent : Nat := 6111

/-- Modelled from the spec: the smallest unbiased exponent, `0 - exponentBias`. -/
def minUnbiasedExponent : Int := -6176

/-! ## Machine integers -/

/-- Conversion to Go's `int16` (two's complement wrap-around). -/
def int16 (x : Int) : Int := (x + 32768) % 65536 - 32768

/-- Conversion to Go's `uint` / `uint64` (64 bits). -/
def uint (x : Nat) : Nat := x % 2 ^ 64

/-- Go's `bits.LeadingZeros64`. -/
def LeadingZeros64 (x : Nat) : Nat := 64 - Nat.size (x % 2 ^ 64)

/-- Modelled from the spec: `uint128.div10`, quotient and remainder of the
division by 10 (FixedWidthIntegers). -/
def uint128.div10 (n : Nat) : Nat × Nat := (n / 10, n % 10)

/-- Modelled from the spec: `uint128.mul64`, the product with a 64-bit word,
kept to 128 bits. -/
def uint128.mul64 (n v : Nat) : Nat := (n * v) % 2 ^ 128

/-- Modelled from the spec: `uint128.add64`, the sum with a 64-bit word, kept
to 128 bits. -/
def uint128.add64 (n v : Nat) : Nat := (n + v) % 2 ^ 128

/-- Word `i` of a little-endian array of 64-bit words (`n[i]` in the source). -/
def word (n i : Nat) : Nat := n / 2 ^ (64 * i) % 2 ^ 64

/-- Modelled from the spec: `uint256.div10`; the argument is read as a 256-bit
value. -/
def uint256.div10 (n : Nat) : Nat × Nat := (n % 2 ^ 256 / 10, n % 2 ^ 256 % 10)

/-- Modelled from the spec: `uint256.div1e19`, division by `10 ^ 19`. -/
def uint256.div1e19 (n : Nat) : Nat × Nat := (n / 10 ^ 19, n % 10 ^ 19)

/-- Modelled from the spec: `uint256.lsh`; bits shifted past bit 255 are lost,
a shift by 256 or more clears the value. -/
def uint256.lsh (n k : Nat) : Nat := (n * 2 ^ k) % 2 ^ 256

/-- Modelled from the spec: `uint192.div10000`, division by `10 ^ 4`. -/
def uint192.div10000 (n : Nat) : Nat × Nat := (n / 10000, n % 10000)

/-- Modelled from the spec: `uint192.div10`. -/
def uint192.div10 (n : Nat) : Nat × Nat := (n / 10, n % 10)

/-! ## The value type -/

/-- Modelled from the spec: the operation identifiers of a NaN payload that
`exp.go` uses. -/
inductive PayloadOp
  | payloadOpLog
  | payloadOpLog2
  | payloadOpLog10
  | payloadOpSqrt
  deriving DecidableEq, Repr

/-- Modelled from the spec: the invalid-input categories of a NaN payload that
`exp.go` uses. -/
inductive PayloadVal
  | payloadValNegFinite
  | payloadValNegInfinite
  deriving DecidableEq, Repr

/-- Modelled from the spec: the diagnostic payload of a NaN (operation,
invalid-input category, index). -/
structure Payload where
  op : PayloadOp
  val : PayloadVal
  idx : Nat
  deriving DecidableEq, Repr

/-- Modelled from the spec: `Decimal` (DecimalValue, section 3) as a tagged
union.  A finite value has a sign, a significand and a biased exponent; an
infinity has a sign; a NaN has a sign and, when an operation produced it, a
diagnostic payload. -/
inductive Decimal
  | regularForm (neg : Bool) (sig : Nat) (exp : Int)
  | infForm (neg : Bool)
  | nanForm (neg : Bool) (payload : Option Payload)
  deriving DecidableEq, Repr

/-- Modelled from the spec: the invariants of a finite `Decimal`
(significand below `10 ^ 34`, biased exponent in `[0, maxBiasedExponent]`). -/
def Decimal.Valid : Decimal → Prop
  | .regularForm _ sig exp => sig < 10 ^ 34 ∧ 0 ≤ exp ∧ exp ≤ maxBiasedExponent
  | _ => True

/-- Modelled from the spec: `Decimal.isSpecial`, infinity or NaN. -/
def Decimal.isSpecial : Decimal → Bool
  | .regularForm _ _ _ => false
  | _ => true

/-- Modelled from the spec: `Decimal.IsNaN`. -/
def Decimal.IsNaN : Decimal → Bool
  | .nanForm _ _ => true
  | _ => false

/-- Modelled from the spec: `Decimal.Signbit`. -/
def Decimal.Signbit : Decimal → Bool
  | .regularForm neg _ _ => neg
  | .infForm neg => neg
  | .nanForm neg _ => neg

/-- Modelled from the spec: `Decimal.IsZero`, a finite value with significand 0. -/
def Decimal.IsZero : Decimal → Bool
  | .regularForm _ sig _ => sig == 0
  | _ => false

/-- Modelled from the spec: `Decimal.decompose`, significand and biased
exponent of a finite value. -/
def Decimal.decompose : Decimal → Nat × Int
  | .regularForm _ sig exp => (sig, exp)
  | _ => (0, 0)

/-- Modelled from the spec: `compose`, the finite value with the given sign,
significand and biased exponent. -/
def compose (neg : Bool) (sig : Nat) (exp : Int) : Decimal := .regularForm neg sig exp

/-- Modelled from the spec: the constant constructor `zero(sign)`. -/
def zero (neg : Bool) : Decimal := .regularForm neg 0 exponentBias

/-- Modelled from the spec: the constant constructor `one(sign)`. -/
def one (neg : Bool) : Decimal := .regularForm neg 1 exponentBias

/-- Modelled from the spec: the constant constructor `inf(sign)`. -/
def inf (neg : Bool) : Decimal := .infForm neg

/-- Modelled from the spec: `nan(operationId, invalidValueCategory, index)`. -/
def nan (op : PayloadOp) (val : PayloadVal) (idx : Nat) : Decimal :=
  .nanForm false (some ⟨op, val, idx⟩)

/-! ## Extended-precision values and the helpers taken as parameters -/

/-- The intermediate value `decomposed128` (significand, unbiased exponent). -/
structure decomposed128 where
  sig : Nat
  exp : Int
  deriving DecidableEq, Repr

/-- What `exp.go` calls from the rest of the package.  Every field is a total
function; the truncation flag is the trailing `Int` of a result. -/
structure Helpers where
  maxDigits : Nat
  log10 : Nat → Int
  mul : decomposed128 → decomposed128 → Int → decomposed128 × Int
  quo : decomposed128 → decomposed128 → Int → decomposed128 × Int
  add : decomposed128 → decomposed128 → Int → decomposed128 × Int
  epow : decomposed128 → Int → Int → decomposed128 × Int
  log : decomposed128 → Bool × decomposed128 × Int
  reduce128 : Bool → Nat → Int → Int → Nat × Int
  ln2 : decomposed128
  ln10 : decomposed128
  invLn2 : decomposed128
  invLn10 : decomposed128

/-- Modelled from the spec: `log10` estimates the base-10 magnitude of a
non-zero significand; it is the floor of the decimal logarithm or one more (the
digit count). -/
def Helpers.Log10Estimates (H : Helpers) : Prop :=
  ∀ n : Nat, 0 < n → (Nat.log 10 n : Int) ≤ H.log10 n ∧ H.log10 n ≤ (Nat.log 10 n : Int) + 1

/-- Modelled from the spec: `reduce128` returns a significand that fits in 34
digits with an in-range biased exponent unchanged (truncation flag 0). -/
def Helpers.ReduceKeepsFitting (H : Helpers) : Prop :=
  ∀ (neg : Bool) (sig : Nat) (exp : Int), sig < 10 ^ 34 → 0 ≤ exp → exp ≤ maxBiasedExponent →
    H.reduce128 neg sig exp 0 = (sig, exp)

/-- A small instance of `Helpers`, used to evaluate the functions at concrete
inputs: exact digit magnitude, pass-through arithmetic and rounding. -/
def sampleHelpers : Helpers where
  maxDigits := 35
  log10 := fun n => (Nat.log 10 n : Int)
  mul := fun a _ t => (a, t)
  quo := fun a _ t => (a, t)
  add := fun a _ t => (a, t)
  epow := fun a _ t => (a, t)
  log := fun a => (false, a, 0)
  reduce128 := fun _ sig exp _ => (sig, exp)
  ln2 := ⟨1, 0⟩
  ln10 := ⟨1, 0⟩
  invLn2 := ⟨1, 0⟩
  invLn10 := ⟨1, 0⟩

/-! ## Loops -/

/-- The loop `for cond(s) { s = body(s) }` run with a bound on the number of
tests of the condition; `none` when the bound is used up. -/
def whileFuel {σ : Type} (cond : σ → Bool) (body : σ → σ) : Nat → σ → Option σ
  | 0, _ => none
  | fuel + 1, s => if cond s then whileFuel cond body fuel (body s) else some s

/-- The loop `for cond(s) { s = body(s) }` as a total function, given a rank
that every iteration strictly decreases. -/
def whileLoop {σ : Type} (cond : σ → Bool) (body : σ → σ) (rank : σ → Nat)
    (dec : ∀ s, cond s = true → rank (body s) < rank s) (s : σ) : σ :=
  if h : cond s = true then whileLoop cond body rank dec (body s) else s
termination_by rank s
decreasing_by exact dec s h

/-- A loop terminates with result `loop`: every pass of `body` under `cond`
strictly decreases `rank`, and running `cond` and `body` from any state `s`
with a bound of `rank s + 1` tests of the condition ends in `loop s`. -/
def Terminates {σ : Type} (cond : σ → Bool) (body : σ → σ) (rank : σ → Nat)
    (loop : σ → σ) : Prop :=
  (∀ s, cond s = true → rank (body s) < rank s) ∧
  (∀ s, whileFuel cond body (rank s + 1) s = some (loop s))

/-- State of the digit loops of `Exp10` and `Exp2`: the digits still to read
(`sig`), the digits read so far in reverse order (`dSig`) and the running
exponent. -/
structure DigitState where
  sig : Nat
  dSig : Nat
  exp : Int
  deriving DecidableEq, Repr

/-- One pass of the body shared by the digit loops: `sig, rem = sig.div10()`,
`dSig = dSig.mul64(10)`, `dSig = dSig.add64(rem)`. -/
def moveDigit (sig dSig : Nat) : Nat × Nat :=
  ((uint128.div10 sig).1, uint128.add64 (uint128.mul64 dSig 10) (uint128.div10 sig).2)

/-- Body of `for exp < 0 { ...; exp++ }` (exp.go 104-111 and 249-256). -/
def splitLoop.body (s : DigitState) : DigitState :=
  ⟨(moveDigit s.sig s.dSig).1, (moveDigit s.sig s.dSig).2, int16 (s.exp + 1)⟩

/-- Condition of `for exp < 0`. -/
def splitLoop.cond (s : DigitState) : Bool := decide (s.exp < 0)

/-- Rank of `for exp < 0`: the distance of `exp` from 0. -/
def splitLoop.rank (s : DigitState) : Nat := (-s.exp).toNat

/-- The loop `for exp < 0 { ... }` (exp.go 104-111 and 249-256). -/
def splitLoop : DigitState → DigitState :=
  whileLoop splitLoop.cond splitLoop.body splitLoop.rank (by
    intro s h
    simp only [splitLoop.cond, decide_eq_true_eq] at h
    simp only [splitLoop.rank, splitLoop.body, int16]
    omega)

/-- State of `for exp > 0 { dSigInt *= 10; exp-- }`. -/
structure ScaleState where
  dSigInt : Nat
  exp : Int
  deriving DecidableEq, Repr

/-- Body of `for exp > 0 { dSigInt *= 10; exp-- }` (exp.go 115-118, 260-263). -/
def scaleLoop.body (s : ScaleState) : ScaleState :=
  ⟨uint (s.dSigInt * 10), int16 (s.exp - 1)⟩

/-- Condition of `for exp > 0`. -/
def scaleLoop.cond (s : ScaleState) : Bool := decide (s.exp > 0)

/-- Rank of `for exp > 0`: the distance of `exp` from 0. -/
def scaleLoop.rank (s : ScaleState) : Nat := s.exp.toNat

/-- The loop `for exp > 0 { dSigInt *= 10; exp-- }`. -/
def scaleLoop : ScaleState → ScaleState :=
  whileLoop scaleLoop.cond scaleLoop.body scaleLoop.rank (by
    intro s h
    simp only [scaleLoop.cond, decide_eq_true_eq] at h
    simp only [scaleLoop.rank, scaleLoop.body, int16]
    omega)

/-- Body of `for sig != (uint128{}) { ...; dExp-- }` (exp.go 132-139, 269-276). -/
def reverseLoop.body (s : DigitState) : DigitState :=
  ⟨(moveDigit s.sig s.dSig).1, (moveDigit s.sig s.dSig).2, int16 (s.exp - 1)⟩

/-- Condition of `for sig != (uint128{})`. -/
def reverseLoop.cond (s : DigitState) : Bool := decide (s.sig ≠ 0)

/-- Rank of `for sig != (uint128{})`: the digits still to read. -/
def reverseLoop.rank (s : DigitState) : Nat := s.sig

/-- The loop `for sig != (uint128{}) { ... }`. -/
def reverseLoop : DigitState → DigitState :=
  whileLoop reverseLoop.cond reverseLoop.body reverseLoop.rank (by
    intro s h
    simp only [reverseLoop.cond, decide_eq_true_eq] at h
    simp only [reverseLoop.rank, reverseLoop.body, moveDigit, uint128.div10]
    omega)

/-- The integer part read off by the first two loops of the split
(exp.go 100-118, 245-263): `dSigInt` and the reversed fraction digits. -/
def splitInteger (dSig : Nat) (dExp : Int) : Nat × Nat :=
  let s := splitLoop ⟨dSig, 0, dExp⟩
  ((scaleLoop ⟨uint (word s.sig 0), s.exp⟩).dSigInt, s.dSig)

/-- The fraction rebuilt by the third loop of the split (exp.go 128-139,
265-276) from the reversed digits: the new `dSig` and `dExp`. -/
def splitFraction (rev : Nat) : Nat × Int :=
  let s := reverseLoop ⟨rev, 0, 0⟩
  (s.dSig, s.exp)

/-- State of `for dSigInt > maxUnbiasedExponent { sigInt = sigInt.mul64(10); dSigInt-- }`. -/
structure ExcessState where
  sigInt : Nat
  dSigInt : Nat
  deriving DecidableEq, Repr

/-- Body of the loop at exp.go 151-154. -/
def Exp10.excessLoop.body (s : ExcessState) : ExcessState :=
  ⟨uint128.mul64 s.sigInt 10, s.dSigInt - 1⟩

/-- Condition of the loop at exp.go 151. -/
def Exp10.excessLoop.cond (s : ExcessState) : Bool := decide (s.dSigInt > maxUnbiasedExponent)

/-- Rank of the loop at exp.go 151: `dSigInt`. -/
def Exp10.excessLoop.rank (s : ExcessState) : Nat := s.dSigInt

/-- The loop at exp.go 151-154. -/
def Exp10.excessLoop : ExcessState → ExcessState :=
  whileLoop Exp10.excessLoop.cond Exp10.excessLoop.body Exp10.excessLoop.rank (by
    intro s h
    simp only [Exp10.excessLoop.cond, decide_eq_true_eq, maxUnbiasedExponent] at h
    simp only [Exp10.excessLoop.rank, Exp10.excessLoop.body]
    omega)

/-! ## Results before rounding -/

/-- Where a function stands when it either returns early or reaches the
rounding engine: `done r` is `return r`; `round neg res trunc` is the call
`DefaultRoundingMode.reduce128(neg, res.sig, res.exp+exponentBias, trunc)`. -/
inductive Staged
  | done (r : Decimal)
  | round (neg : Bool) (res : decomposed128) (trunc : Int)
  deriving DecidableEq, Repr

/-- The block `if d.Signbit() { return zero(false) }; return inf(false)` that
the exponentials run at every overflow exit. -/
def overflowExit (d : Decimal) : Decimal :=
  if d.Signbit then zero false else inf false

/-- The special-input prologue shared by `Exp`, `Exp10` and `Exp2`
(exp.go 7-21, 70-84, 215-229); `none` when `d` is finite and non-zero. -/
def expSpecial (d : Decimal) : Option Decimal :=
  if d.isSpecial then
    if d.IsNaN then some d
    else if d.Signbit then some (zero false)
    else some (inf false)
  else if d.IsZero then some (one false)
  else none

/-- The end of the exponentials (exp.go 48-65, 193-210, 403-420) after the
reciprocal: round, then the last overflow check. -/
def expRound (H : Helpers) (d : Decimal) (res : decomposed128) (trunc : Int) : Decimal :=
  let r := H.reduce128 false res.sig (int16 (res.exp + exponentBias)) trunc
  if r.2 > maxBiasedExponent then overflowExit d else compose false r.1 r.2

/-- The reciprocal step `if d.Signbit() { res, trunc = 1.quo(res, trunc) }`. -/
def reciprocal (H : Helpers) (d : Decimal) (res : decomposed128) (trunc : Int) :
    decomposed128 × Int :=
  if d.Signbit then H.quo ⟨1, 0⟩ res trunc else (res, trunc)

/-! ## Exp -/

/-- `Exp` up to the call of the rounding engine (exp.go 6-55). -/
def Exp.staged (H : Helpers) (d : Decimal) : Staged :=
  match expSpecial d with
  | some r => .done r
  | none =>
    let dSig := d.decompose.1
    let dExp := int16 (d.decompose.2 - exponentBias)
    let l10 := H.log10 dSig
    if dExp > 5 - l10 then .done (overflowExit d)
    else
      let r := H.epow ⟨dSig, dExp⟩ (int16 l10) 0
      if r.1.exp > maxUnbiasedExponent + 39 then .done (overflowExit d)
      else
        let q := reciprocal H d r.1 r.2
        .round false q.1 q.2

/-- `Exp` returns e**d (exp.go 6-66). -/
def Exp (H : Helpers) (d : Decimal) : Decimal :=
  match Exp.staged H d with
  | .done r => r
  | .round _ res trunc => expRound H d res trunc

/-! ## Exp10 -/

/-- `Exp10` up to the call of the rounding engine (exp.go 69-200). -/
def Exp10.staged (H : Helpers) (d : Decimal) : Staged :=
  match expSpecial d with
  | some r => .done r
  | none =>
    let dSig0 := d.decompose.1
    let dExp0 := int16 (d.decompose.2 - exponentBias)
    let l10 := H.log10 dSig0
    if dExp0 > 4 - l10 then .done (overflowExit d)
    else
      let split := decide (l10 + dExp0 ≥ 0)
      let ip := if split then splitInteger dSig0 dExp0 else (0, dSig0)
      if split ∧ ip.1 > maxUnbiasedExponent + 39 then .done (overflowExit d)
      else
        let fr := if split then splitFraction ip.2 else (dSig0, dExp0)
        let dSig := fr.1
        let dExp := fr.2
        let ex := if ip.1 ≠ 0 then Exp10.excessLoop ⟨1, ip.1⟩ else ⟨0, ip.1⟩
        let sigInt := ex.sigInt
        let expInt := if ip.1 ≠ 0 then int16 ex.dSigInt else 0
        if dSig ≠ 0 then
          let r1 := H.mul ⟨dSig, dExp⟩ H.ln10 0
          let r2 := H.epow r1.1 (int16 l10) r1.2
          if r2.1.exp > maxUnbiasedExponent + 39 then .done (overflowExit d)
          else
            let res : decomposed128 :=
              if expInt ≠ 0 then ⟨r2.1.sig, int16 (r2.1.exp + expInt)⟩ else r2.1
            if res.exp > maxUnbiasedExponent + 39 then .done (overflowExit d)
            else
              let q := reciprocal H d res r2.2
              .round false q.1 q.2
        else
          let res : decomposed128 := ⟨1, expInt⟩
          if res.exp > maxUnbiasedExponent + 39 then .done (overflowExit d)
          else
            let q := reciprocal H d res 0
            .round false q.1 q.2

/-- `Exp10` returns 10**d (exp.go 69-211). -/
def Exp10 (H : Helpers) (d : Decimal) : Decimal :=
  match Exp10.staged H d with
  | .done r => r
  | .round _ res trunc => expRound H d res trunc

/-! ## Exp2 -/

/-- The integer power under construction in `Exp2`: significand (128, 192 or
256 bits wide), decimal exponent `expInt` and truncation flag. -/
structure PowState where
  sig : Nat
  expInt : Int
  trunc : Int
  deriving DecidableEq, Repr

/-- State of the loop `for shift > 0 { ... }` of `Exp2` (exp.go 310-327);
`broke` records that the `break` was taken. -/
structure ShiftState where
  shift : Nat
  sig : Nat
  expInt : Int
  trunc : Int
  broke : Bool
  deriving DecidableEq, Repr

/-- Body of the loop at exp.go 310-327: divide by 10, then shift left by the
leading zeros of the top word or by what is left of `shift`. -/
def Exp2.shiftLoop.body (s : ShiftState) : ShiftState :=
  let q := uint256.div10 s.sig
  let expInt := int16 (s.expInt + 1)
  let trunc := if q.2 ≠ 0 then 1 else s.trunc
  let zeros := LeadingZeros64 (word q.1 3)
  if s.shift > zeros then
    ⟨s.shift - zeros, uint256.lsh q.1 zeros, expInt, trunc, false⟩
  else
    ⟨s.shift, uint256.lsh q.1 s.shift, expInt, trunc, true⟩

/-- Condition of the loop at exp.go 310: `shift > 0`, and no `break` so far. -/
def Exp2.shiftLoop.cond (s : ShiftState) : Bool := decide (s.shift > 0) && !s.broke

/-- Rank of the loop at exp.go 310-327: what is left of `shift`. -/
def Exp2.shiftLoop.rank (s : ShiftState) : Nat := if s.broke then 0 else s.shift

/-- The loop at exp.go 310-327. -/
def Exp2.shiftLoop : ShiftState → ShiftState :=
  whileLoop Exp2.shiftLoop.cond Exp2.shiftLoop.body Exp2.shiftLoop.rank (by
    intro s h
    simp only [Exp2.shiftLoop.cond, Bool.and_eq_true, decide_eq_true_eq,
      Bool.not_eq_true'] at h
    have hz : 1 ≤ LeadingZeros64 (word (uint256.div10 s.sig).1 3) := by
      have hw : word (uint256.div10 s.sig).1 3 % 2 ^ 64 < 2 ^ 63 := by
        simp only [word, uint256.div10]
        omega
      have hs := Nat.size_le.mpr hw
      simp only [LeadingZeros64]
      omega
    simp only [Exp2.shiftLoop.rank, Exp2.shiftLoop.body, h.2]
    split <;> simp <;> omega)

/-- Body of `for sigInt256[3] > 0 { ... div1e19 ... }` (exp.go 330-338). -/
def Exp2.narrow1e19.body (s : PowState) : PowState :=
  ⟨(uint256.div1e19 s.sig).1, int16 (s.expInt + 19),
    if (uint256.div1e19 s.sig).2 ≠ 0 then 1 else s.trunc⟩

/-- Condition of the loop at exp.go 330. -/
def Exp2.narrow1e19.cond (s : PowState) : Bool := decide (word s.sig 3 > 0)

/-- Rank of the narrowing loops of `Exp2` (exp.go 330, 342, 352): the value
still to divide. -/
def Exp2.narrow.rank (s : PowState) : Nat := s.sig

/-- The loop at exp.go 330-338. -/
def Exp2.narrow1e19 : PowState → PowState :=
  whileLoop Exp2.narrow1e19.cond Exp2.narrow1e19.body Exp2.narrow.rank (by
    intro s h
    simp only [Exp2.narrow1e19.cond, decide_eq_true_eq, word] at h
    simp only [Exp2.narrow.rank, Exp2.narrow1e19.body, uint256.div1e19]
    omega)

/-- Body of `for sigInt192[2] >= 0xffff { ... div10000 ... }` (exp.go 342-350). -/
def Exp2.narrow10000.body (s : PowState) : PowState :=
  ⟨(uint192.div10000 s.sig).1, int16 (s.expInt + 4),
    if (uint192.div10000 s.sig).2 ≠ 0 then 1 else s.trunc⟩

/-- Condition of the loop at exp.go 342. -/
def Exp2.narrow10000.cond (s : PowState) : Bool := decide (word s.sig 2 ≥ 0xffff)

/-- The loop at exp.go 342-350. -/
def Exp2.narrow10000 : PowState → PowState :=
  whileLoop Exp2.narrow10000.cond Exp2.narrow10000.body Exp2.narrow.rank (by
    intro s h
    simp only [Exp2.narrow10000.cond, decide_eq_true_eq, word] at h
    simp only [Exp2.narrow.rank, Exp2.narrow10000.body, uint192.div10000]
    omega)

/-- Body of `for sigInt192[2] > 0 { ... div10 ... }` (exp.go 352-360). -/
def Exp2.narrow10.body (s : PowState) : PowState :=
  ⟨(uint192.div10 s.sig).1, int16 (s.expInt + 1),
    if (uint192.div10 s.sig).2 ≠ 0 then 1 else s.trunc⟩

/-- Condition of the loop at exp.go 352. -/
def Exp2.narrow10.cond (s : PowState) : Bool := decide (word s.sig 2 > 0)

/-- The loop at exp.go 352-360. -/
def Exp2.narrow10 : PowState → PowState :=
  whileLoop Exp2.narrow10.cond Exp2.narrow10.body Exp2.narrow.rank (by
    intro s h
    simp only [Exp2.narrow10.cond, decide_eq_true_eq, word] at h
    simp only [Exp2.narrow.rank, Exp2.narrow10.body, uint192.div10]
    omega)

/-- The 256-bit value that `Exp2` builds before narrowing when `shift >= 128`
(exp.go 301-328): `1 << (shift - 128)` in word 2, `1 << (shift - 192)` in
word 3, or the result of the divide-by-10 / left-shift loop. -/
def Exp2.widePower (shift : Nat) : PowState :=
  if shift < 192 then
    ⟨uint (1 <<< (shift - 128)) * 2 ^ 128, 0, 0⟩
  else if shift < 256 then
    ⟨uint (1 <<< (shift - 192)) * 2 ^ 192, 0, 0⟩
  else
    let s := Exp2.shiftLoop ⟨shift - 255, 0x8000000000000000 * 2 ^ 192, 0, 0, false⟩
    ⟨s.sig, s.expInt, s.trunc⟩

/-- The triple `(sigInt, expInt, trunc)` that `Exp2` builds from
`shift = dSigInt` (exp.go 294-363). -/
def Exp2.intPower (shift : Nat) : PowState :=
  if shift < 64 then
    ⟨uint (1 <<< shift), 0, 0⟩
  else if shift < 128 then
    ⟨uint (1 <<< (shift - 64)) * 2 ^ 64, 0, 0⟩
  else
    let p0 := Exp2.widePower shift
    let p1 := Exp2.narrow1e19 p0
    let p2 := Exp2.narrow10000 ⟨p1.sig % 2 ^ 192, p1.expInt, p1.trunc⟩
    let p3 := Exp2.narrow10 p2
    ⟨p3.sig % 2 ^ 128, p3.expInt, p3.trunc⟩

/-- The end of `Exp2` before rounding (exp.go 395-408). -/
def Exp2.tail (H : Helpers) (d : Decimal) (res : decomposed128) (trunc : Int) : Staged :=
  if res.exp > maxUnbiasedExponent + H.maxDigits then .done (overflowExit d)
  else
    let q := reciprocal H d res trunc
    .round false q.1 q.2

/-- `Exp2` up to the call of the rounding engine (exp.go 214-410). -/
def Exp2.staged (H : Helpers) (d : Decimal) : Staged :=
  match expSpecial d with
  | some r => .done r
  | none =>
    let dSig0 := d.decompose.1
    let dExp0 := int16 (d.decompose.2 - exponentBias)
    let l10 := H.log10 dSig0
    if dExp0 > 5 - l10 then .done (overflowExit d)
    else
      let split := decide (l10 + dExp0 ≥ 0)
      let ip := if split then splitInteger dSig0 dExp0 else (0, dSig0)
      let fr := if split then splitFraction ip.2 else (dSig0, dExp0)
      let dSigInt := ip.1
      let dSig := fr.1
      let dExp := fr.2
      if dSigInt ≠ 0 ∧ dSigInt > exponentBias + H.maxDigits then .done (overflowExit d)
      else
        let pw : PowState := if dSigInt ≠ 0 then Exp2.intPower dSigInt else ⟨0, 0, 0⟩
        if dSig ≠ 0 then
          let r1 := H.mul ⟨dSig, dExp⟩ H.ln2 0
          let r2 := H.epow r1.1 (int16 l10) r1.2
          if r2.1.exp > maxUnbiasedExponent + 39 then .done (overflowExit d)
          else
            let r3 := if dSigInt ≠ 0 then H.mul ⟨pw.sig, pw.expInt⟩ r2.1 r2.2 else r2
            Exp2.tail H d r3.1 r3.2
        else
          Exp2.tail H d ⟨pw.sig, pw.expInt⟩ pw.trunc

/-- `Exp2` returns 2**d (exp.go 214-421). -/
def Exp2 (H : Helpers) (d : Decimal) : Decimal :=
  match Exp2.staged H d with
  | .done r => r
  | .round _ res trunc => expRound H d res trunc

/-! ## Log, Log10, Log2 -/

/-- The end of the logarithms and of `Sqrt`: round, then
`if exp > maxBiasedExponent { return inf(neg) }; return compose(neg, sig, exp)`. -/
def logRound (H : Helpers) (neg : Bool) (res : decomposed128) (trunc : Int) : Decimal :=
  let r := H.reduce128 neg res.sig (int16 (res.exp + exponentBias)) trunc
  if r.2 > maxBiasedExponent then inf neg else compose neg r.1 r.2

/-- `Log` up to the call of the rounding engine (exp.go 424-452). -/
def Log.staged (H : Helpers) (d : Decimal) : Staged :=
  if d.isSpecial then
    if d.IsNaN then .done d
    else if d.Signbit then .done (nan .payloadOpLog .payloadValNegInfinite 0)
    else .done (inf false)
  else if d.IsZero then .done (inf true)
  else if d.Signbit then .done (nan .payloadOpLog .payloadValNegFinite 0)
  else
    let r := H.log ⟨d.decompose.1, int16 (d.decompose.2 - exponentBias)⟩
    .round r.1 r.2.1 r.2.2

/-- `Log` returns the natural logarithm of d (exp.go 424-459). -/
def Log (H : Helpers) (d : Decimal) : Decimal :=
  match Log.staged H d with
  | .done r => r
  | .round neg res trunc => logRound H neg res trunc

/-- `Log10` up to the call of the rounding engine (exp.go 462-492). -/
def Log10.staged (H : Helpers) (d : Decimal) : Staged :=
  if d.isSpecial then
    if d.IsNaN then .done d
    else if d.Signbit then .done (nan .payloadOpLog10 .payloadValNegInfinite 0)
    else .done (inf false)
  else if d.IsZero then .done (inf true)
  else if d.Signbit then .done (nan .payloadOpLog10 .payloadValNegFinite 0)
  else
    let r := H.log ⟨d.decompose.1, int16 (d.decompose.2 - exponentBias)⟩
    let m := H.mul r.2.1 H.invLn10 r.2.2
    .round r.1 m.1 m.2

/-- `Log10` returns the decimal logarithm of d (exp.go 462-499). -/
def Log10 (H : Helpers) (d : Decimal) : Decimal :=
  match Log10.staged H d with
  | .done r => r
  | .round neg res trunc => logRound H neg res trunc

/-- `Log2` up to the call of the rounding engine (exp.go 502-532). -/
def Log2.staged (H : Helpers) (d : Decimal) : Staged :=
  if d.isSpecial then
    if d.IsNaN then .done d
    else if d.Signbit then .done (nan .payloadOpLog2 .payloadValNegInfinite 0)
    else .done (inf false)
  else if d.IsZero then .done (inf true)
  else if d.Signbit then .done (nan .payloadOpLog2 .payloadValNegFinite 0)
  else
    let r := H.log ⟨d.decompose.1, int16 (d.decompose.2 - exponentBias)⟩
    let m := H.mul r.2.1 H.invLn2 r.2.2
    .round r.1 m.1 m.2

/-- `Log2` returns the binary logarithm of d (exp.go 502-539). -/
def Log2 (H : Helpers) (d : Decimal) : Decimal :=
  match Log2.staged H d with
  | .done r => r
  | .round neg res trunc => logRound H neg res trunc

/-! ## Sqrt -/

/-- State of the loop `for i := 0; i < 8; i++ { ... }` of `Sqrt`. -/
structure NewtonState where
  i : Nat
  tmp : decomposed128
  res : decomposed128
  trunc : Int
  deriving DecidableEq, Repr

/-- The constant `half` of `Sqrt` (exp.go 608-611). -/
def Sqrt.half : decomposed128 := ⟨5, -1⟩

/-- Body of the loop at exp.go 613-617, with the increment `i++`. -/
def Sqrt.newton.body (H : Helpers) (nrm : decomposed128) (s : NewtonState) : NewtonState :=
  let t := H.quo nrm s.res s.trunc
  let a := H.add s.res t.1 t.2
  let m := H.mul Sqrt.half a.1 a.2
  ⟨s.i + 1, t.1, m.1, m.2⟩

/-- Condition of the loop at exp.go 613: `i < 8`. -/
def Sqrt.newton.cond (s : NewtonState) : Bool := decide (s.i < 8)

/-- Rank of the loop at exp.go 613: the iterations still to run. -/
def Sqrt.newton.rank (s : NewtonState) : Nat := 8 - s.i

/-- The loop at exp.go 613-617. -/
def Sqrt.newton (H : Helpers) (nrm : decomposed128) : NewtonState → NewtonState :=
  whileLoop Sqrt.newton.cond (Sqrt.newton.body H nrm) Sqrt.newton.rank (by
    intro s h
    simp only [Sqrt.newton.cond, decide_eq_true_eq] at h
    simp only [Sqrt.newton.rank, Sqrt.newton.body]
    omega)

/-- The parity branch of `Sqrt` (exp.go 567-602): the constants `add` and
`mul` of the linear estimate, the normalised argument `nrm` and the adjusted
exponent `dExp`. -/
structure SqrtNorm where
  add : decomposed128
  mul : decomposed128
  nrm : decomposed128
  dExp : Int
  deriving DecidableEq, Repr

/-- The normalisation of `Sqrt` (exp.go 563-602). -/
def Sqrt.normalise (H : Helpers) (d : Decimal) : SqrtNorm :=
  let dSig := d.decompose.1
  let l10 := int16 (H.log10 dSig)
  let dExp := int16 (int16 (d.decompose.2 - exponentBias) + l10)
  if dExp % 2 = 0 then
    ⟨⟨259, -3⟩, ⟨819, -3⟩, ⟨dSig, int16 (-l10)⟩, dExp⟩
  else
    ⟨⟨819, -4⟩, ⟨259, -2⟩, ⟨dSig, int16 (int16 (-l10) - 1)⟩, int16 (dExp + 1)⟩

/-- `Sqrt` up to the call of the rounding engine (exp.go 542-620). -/
def Sqrt.staged (H : Helpers) (d : Decimal) : Staged :=
  if d.isSpecial then
    if d.IsNaN then .done d
    else if d.Signbit then .done (nan .payloadOpSqrt .payloadValNegInfinite 0)
    else .done d
  else if d.IsZero then .done d
  else if d.Signbit then .done (nan .payloadOpSqrt .payloadValNegFinite 0)
  else
    let n := Sqrt.normalise H d
    let r0 := H.mul n.nrm n.mul 0
    let r1 := H.add r0.1 n.add r0.2
    let s := Sqrt.newton H n.nrm ⟨0, ⟨0, 0⟩, r1.1, r1.2⟩
    .round false ⟨s.res.sig, int16 (s.res.exp + Int.tdiv n.dExp 2)⟩ s.trunc

/-- `Sqrt` returns the square root of d (exp.go 542-627). -/
def Sqrt (H : Helpers) (d : Decimal) : Decimal :=
  match Sqrt.staged H d with
  | .done r => r
  | .round neg res trunc => logRound H neg res trunc

/-! ## Compose and Decompose -/

/-- Modelled from the spec: the significand bytes of the interchange tuple, a
big-endian unsigned byte sequence with no leading zero byte (empty for 0). -/
def bigEndianBytes (n : Nat) : List Nat := (Nat.digits 256 n).reverse

/-- Modelled from the spec: the unsigned big integer that a big-endian byte
sequence stands for. -/
def bytesToNat (bs : List Nat) : Nat := Nat.ofDigits 256 bs.reverse

/-- Modelled from the spec: the categories of a Compose-time format error. -/
inductive ComposeError
  | significandTooLarge
  | exponentOutOfRange
  | unknownForm
  deriving DecidableEq, Repr

/-- The interchange tuple `(form, negative, significand bytes, exponent)`. -/
structure Tuple where
  form : Nat
  negative : Bool
  significand : List Nat
  exponent : Int
  deriving DecidableEq, Repr

/-- Modelled from the spec: `Decimal.Decompose` (section 4.5).  Form 0 is
finite, 1 infinite, 2 NaN; the exponent is unbiased; a zero yields an empty
byte sequence and exponent 0. -/
def Decimal.Decompose : Decimal → Tuple
  | .regularForm neg sig exp =>
    if sig = 0 then ⟨0, neg, [], 0⟩ else ⟨0, neg, bigEndianBytes sig, exp - exponentBias⟩
  | .infForm neg => ⟨1, neg, [], 0⟩
  | .nanForm neg _ => ⟨2, neg, [], 0⟩

/-- Modelled from the spec: `Decimal.Compose` (section 4.5).  The bytes are
read as an unsigned big integer and the bias is applied again; a significand
of `10 ^ 34` or more and an exponent outside the representable range are
errors.  A composed NaN carries no diagnostic payload. -/
def Decimal.Compose (t : Tuple) : Except ComposeError Decimal :=
  if t.form = 0 then
    if bytesToNat t.significand ≥ 10 ^ 34 then .error .significandTooLarge
    else if t.exponent < minUnbiasedExponent ∨ t.exponent > maxUnbiasedExponent then
      .error .exponentOutOfRange
    else .ok (.regularForm t.negative (bytesToNat t.significand) (t.exponent + exponentBias))
  else if t.form = 1 then .ok (.infForm t.negative)
  else if t.form = 2 then .ok (.nanForm t.negative none)
  else .error .unknownForm

/-- The round trip of the compose test: `Compose` of a tuple, then
`Decompose(nil)` of the composed value. -/
def composeDecompose (t : Tuple) : Except ComposeError Tuple :=
  match Decimal.Compose t with
  | .ok v => .ok v.Decompose
  | .error err => .error err

/-! ## Reference forms used to state what the loops compute -/

/-- One Newton step `x <- 1/2 * (x + nrm / x)` on a value and its truncation
flag: `quo`, then `add`, then `mul` by `half`, each given the flag the one
before returned. -/
def Sqrt.step (H : Helpers) (nrm : decomposed128) (x : decomposed128 × Int) :
    decomposed128 × Int :=
  let t := H.quo nrm x.1 x.2
  let a := H.add x.1 t.1 t.2
  H.mul Sqrt.half a.1 a.2

/-- The initial linear estimate `x0 = nrm * mul + add` of `Sqrt`
(exp.go 604-605), with its truncation flag. -/
def Sqrt.estimate (H : Helpers) (n : SqrtNorm) : decomposed128 × Int :=
  let r0 := H.mul n.nrm n.mul 0
  H.add r0.1 n.add r0.2

/-- Digit reversal with an accumulator: `k` times, the last decimal digit of
`a` is taken off and appended to `b`.  It is what `k` passes of the digit
loops compute when nothing overflows. -/
def revAcc : Nat → Nat → Nat → Nat
  | 0, _, b => b
  | k + 1, a, b => revAcc k (a / 10) (b * 10 + a % 10)

/-- The left shift applied by one pass of the shift loop of `Exp2` (by the
leading zeros of the top word, or by what is left of `shift`) discards no set
bit: the 256-bit result is the full product. -/
def Exp2.shiftLoop.lossless (s : ShiftState) : Prop :=
  uint256.lsh (uint256.div10 s.sig).1
      (min s.shift (LeadingZeros64 (word (uint256.div10 s.sig).1 3)))
    = (uint256.div10 s.sig).1
      * 2 ^ (min s.shift (LeadingZeros64 (word (uint256.div10 s.sig).1 3)))

/-- What the construction of the integer power of `Exp2` maintains for
`2 ^ n`: a positive significand, a non-negative decimal exponent, a flag that
is 0 or 1, a value that does not exceed `2 ^ n` and equals it exactly when the
flag is 0. -/
def PowInv (n : Nat) (p : PowState) : Prop :=
  0 < p.sig ∧ 0 ≤ p.expInt ∧ (p.trunc = 0 ∨ p.trunc = 1) ∧
  p.sig * 10 ^ p.expInt.toNat ≤ 2 ^ n ∧
  (p.sig * 10 ^ p.expInt.toNat = 2 ^ n ↔ p.trunc = 0)

/-- What the divide-by-10 / left-shift loop of `Exp2` maintains for `2 ^ n`:
a 256-bit non-zero significand whose top bit is set until the `break`, and a
value `sig * 10 ^ expInt * 2 ^ shift` (with the shift still owed) that does
not exceed `2 ^ n` and equals it exactly when the flag is 0. -/
def ShiftInv (n : Nat) (s : ShiftState) : Prop :=
  0 < s.sig ∧ s.sig < 2 ^ 256 ∧ 0 ≤ s.expInt ∧ (s.trunc = 0 ∨ s.trunc = 1) ∧
  (s.broke = false → 2 ^ 255 ≤ s.sig ∧ 1 ≤ s.shift) ∧
  s.sig * 10 ^ s.expInt.toNat * 2 ^ (if s.broke then 0 else s.shift) ≤ 2 ^ n ∧
  (s.sig * 10 ^ s.expInt.toNat * 2 ^ (if s.broke then 0 else s.shift) = 2 ^ n ↔ s.trunc = 0)

/-! ## Lemmas on loops -/

theorem whileLoop_of_true {σ : Type} (cond : σ → Bool) (body : σ → σ) (rank : σ → Nat)
    (dec : ∀ s, cond s = true → rank (body s) < rank s) (s : σ) (h : cond s = true) :
    whileLoop cond body rank dec s = whileLoop cond body rank dec (body s) := by
  rw [whileLoop]
  simp [h]

theorem whileLoop_of_false {σ : Type} (cond : σ → Bool) (body : σ → σ) (rank : σ → Nat)
    (dec : ∀ s, cond s = true → rank (body s) < rank s) (s : σ) (h : cond s = false) :
    whileLoop cond body rank dec s = s := by
  rw [whileLoop]
  simp [h]

/-- A loop whose rank decreases finishes within `rank s + 1` tests of its
condition, in the state the total loop function gives. -/
theorem whileFuel_whileLoop {σ : Type} (cond : σ → Bool) (body : σ → σ) (rank : σ → Nat)
    (dec : ∀ s, cond s = true → rank (body s) < rank s) :
    ∀ (k : Nat) (s : σ), rank s < k →
      whileFuel cond body k s = some (whileLoop cond body rank dec s) := by
  intro k
  induction k with
  | zero => intro s h; omega
  | succ k ih =>
    intro s h
    cases hc : cond s with
    | true =>
      have hlt : rank (body s) < k := by
        have := dec s hc
        omega
      rw [whileLoop_of_true cond body rank dec s hc]
      simp [whileFuel, hc, ih (body s) hlt]
    | false =>
      rw [whileLoop_of_false cond body rank dec s hc]
      simp [whileFuel, hc]

theorem int16_of_range (x : Int) (h1 : -32768 ≤ x) (h2 : x ≤ 32767) : int16 x = x := by
  unfold int16
  omega

theorem splitLoop_done (sig dSig : Nat) (exp : Int) (h : 0 ≤ exp) :
    splitLoop ⟨sig, dSig, exp⟩ = ⟨sig, dSig, exp⟩ := by
  unfold splitLoop
  apply whileLoop_of_false
  simpa [splitLoop.cond] using h

theorem scaleLoop_done (n : Nat) (exp : Int) (h : exp ≤ 0) :
    scaleLoop ⟨n, exp⟩ = ⟨n, exp⟩ := by
  unfold scaleLoop
  apply whileLoop_of_false
  simpa [scaleLoop.cond] using h

theorem reverseLoop_done (dSig : Nat) (exp : Int) :
    reverseLoop ⟨0, dSig, exp⟩ = ⟨0, dSig, exp⟩ := by
  unfold reverseLoop
  apply whileLoop_of_false
  simp [reverseLoop.cond]

/-- With exponent 0 the split reads the low word of the significand as the
integer part and leaves no fraction digits. -/
theorem splitInteger_exp_zero (n : Nat) : splitInteger n 0 = (uint (word n 0), 0) := by
  simp [splitInteger, splitLoop_done, scaleLoop_done]

theorem splitFraction_zero : splitFraction 0 = (0, 0) := by
  simp [splitFraction, reverseLoop_done]

/-- The loop at exp.go 151-154 leaves `dSigInt` at `maxUnbiasedExponent` when it
started above it, and unchanged otherwise. -/
theorem excessLoop_dSigInt (k : Nat) :
    ∀ (a m : Nat), m ≤ maxUnbiasedExponent + k →
      (Exp10.excessLoop ⟨a, m⟩).dSigInt = min m maxUnbiasedExponent := by
  induction k with
  | zero =>
    intro a m h
    have hc : Exp10.excessLoop.cond ⟨a, m⟩ = false := by
      simp only [Exp10.excessLoop.cond, decide_eq_false_iff_not]
      omega
    unfold Exp10.excessLoop
    rw [whileLoop_of_false _ _ _ _ _ hc]
    simp only
    omega
  | succ k ih =>
    intro a m h
    by_cases hm : m > maxUnbiasedExponent
    · have hc : Exp10.excessLoop.cond ⟨a, m⟩ = true := by
        simpa [Exp10.excessLoop.cond] using hm
      have := ih (uint128.mul64 a 10) (m - 1) (by omega)
      unfold Exp10.excessLoop at this ⊢
      rw [whileLoop_of_true _ _ _ _ _ hc]
      simp only [Exp10.excessLoop.body]
      rw [this]
      omega
    · have hc : Exp10.excessLoop.cond ⟨a, m⟩ = false := by
        simpa [Exp10.excessLoop.cond] using hm
      unfold Exp10.excessLoop
      rw [whileLoop_of_false _ _ _ _ _ hc]
      simp only
      omega

/-- What `Log10Estimates` gives for a significand below `10 ^ 4`. -/
theorem log10_small (H : Helpers) (hlog : H.Log10Estimates) (n : Nat) (h1 : 1 ≤ n)
    (h2 : n < 10 ^ 4) : 0 ≤ H.log10 n ∧ H.log10 n ≤ 4 := by
  have h := hlog n (by omega)
  have h3 : Nat.log 10 n < 4 := Nat.log_lt_of_lt_pow (by omega) h2
  omega

/-- On an integer `n` between 1 and 6150 (unbiased exponent 0, positive),
`Exp10` reaches the rounding engine with significand 1, exponent
`min n maxUnbiasedExponent` and truncation flag 0: the factor `sigInt` that
the loop at exp.go 151-154 builds for `n > maxUnbiasedExponent` is not used. -/
theorem Exp10_staged_integer (H : Helpers) (hlog : H.Log10Estimates) (n : Nat)
    (h1 : 1 ≤ n) (h2 : n ≤ 6150) :
    Exp10.staged H (.regularForm false n exponentBias)
      = .round false ⟨1, (min n maxUnbiasedExponent : Nat)⟩ 0 := by
  obtain ⟨hl0, hl4⟩ := log10_small H hlog n h1 (by omega)
  have hn : n ≠ 0 := by omega
  have hsp : expSpecial (.regularForm false n exponentBias) = none := by
    simp [expSpecial, Decimal.isSpecial, Decimal.IsZero, hn]
  have hw : uint (word n 0) = n := by
    simp only [uint, word]
    omega
  have hd : int16 ((exponentBias : Int) - exponentBias) = 0 := by simp [int16]
  have hc1 : ¬ ((0 : Int) > 4 - H.log10 n) := by omega
  have hc2 : H.log10 n + 0 ≥ 0 := by omega
  have hgt : ¬ (n > maxUnbiasedExponent + 39) := by
    simp only [maxUnbiasedExponent]
    omega
  have hex : (Exp10.excessLoop ⟨1, n⟩).dSigInt = min n maxUnbiasedExponent :=
    excessLoop_dSigInt 39 1 n (by simp only [maxUnbiasedExponent]; omega)
  have hmin : int16 ((min n maxUnbiasedExponent : Nat) : Int)
      = (min n maxUnbiasedExponent : Nat) := by
    apply int16_of_range <;> simp only [maxUnbiasedExponent] <;> omega
  have hle : ¬ (((min n maxUnbiasedExponent : Nat) : Int)
      > (maxUnbiasedExponent : Int) + 39) := by
    simp only [maxUnbiasedExponent]
    omega
  simp only [Exp10.staged, hsp, Decimal.decompose, hd, hc1, hc2, if_false, decide_True,
    if_true, splitInteger_exp_zero, splitFraction_zero, hw, hgt, and_false, ne_eq,
    not_true_eq_false, hn, not_false_eq_true, hex, hmin, hle, reciprocal, Decimal.Signbit]
  simp

theorem sampleHelpers_log10 : sampleHelpers.Log10Estimates := by
  intro n _
  simp [sampleHelpers]

theorem sampleHelpers_reduce128 : sampleHelpers.ReduceKeepsFitting := by
  intro neg sig exp _ _ _
  rfl

/-- The rounding step of the exponentials on a value that already fits. -/
theorem expRound_fitting (H : Helpers) (hred : H.ReduceKeepsFitting) (d : Decimal)
    (sig : Nat) (exp : Int) (hs : sig < 10 ^ 34) (h1 : -6176 ≤ exp) (h2 : exp ≤ 6111) :
    expRound H d ⟨sig, exp⟩ 0 = .regularForm false sig (exp + exponentBias) := by
  have hi : int16 (exp + exponentBias) = exp + exponentBias := by
    apply int16_of_range <;> simp only [exponentBias] <;> omega
  have hr := hred false sig (exp + exponentBias) hs
    (by simp only [exponentBias]; omega) (by simp only [exponentBias, maxBiasedExponent]; omega)
  have hm : ¬ (exp + exponentBias > (maxBiasedExponent : Int)) := by
    simp only [exponentBias, maxBiasedExponent]
    omega
  simp only [expRound, hi, hr, hm, if_false, compose]

/-- For `shift < 128` the integer power of `Exp2` is `2 ^ shift` exactly. -/
theorem intPower_lt_128 (n : Nat) (h : n < 128) : Exp2.intPower n = ⟨2 ^ n, 0, 0⟩ := by
  have h64v : (18446744073709551616 : Nat) = 2 ^ 64 := by norm_num
  unfold Exp2.intPower
  by_cases h64 : n < 64
  · have hlt : 2 ^ n < 18446744073709551616 := by
      rw [h64v]
      exact Nat.pow_lt_pow_right (by norm_num) h64
    simp [h64, uint, Nat.shiftLeft_eq, Nat.mod_eq_of_lt hlt]
  · have hlt : 2 ^ (n - 64) < 18446744073709551616 := by
      rw [h64v]
      exact Nat.pow_lt_pow_right (by norm_num) (by omega)
    have hp : 2 ^ (n - 64) * 18446744073709551616 = 2 ^ n := by
      rw [h64v, ← pow_add]
      congr 1
      omega
    simp [h64, h, uint, Nat.shiftLeft_eq, Nat.mod_eq_of_lt hlt, hp]

/-- After a 256-bit divide by 10 the top word has a leading zero bit. -/
theorem leadingZeros_after_div10 (n : Nat) :
    1 ≤ LeadingZeros64 (word (uint256.div10 n).1 3) := by
  have hw : word (uint256.div10 n).1 3 % 2 ^ 64 < 2 ^ 63 := by
    simp only [word, uint256.div10]
    omega
  have hs := Nat.size_le.mpr hw
  simp only [LeadingZeros64]
  omega

theorem bytesToNat_bigEndianBytes (n : Nat) : bytesToNat (bigEndianBytes n) = n := by
  simp [bytesToNat, bigEndianBytes, Nat.ofDigits_digits]

theorem Compose_Decompose_zero (neg : Bool) (exp : Int) :
    Decimal.Compose (Decimal.regularForm neg 0 exp).Decompose = .ok (zero neg) := by
  simp [Decimal.Compose, Decimal.Decompose, bytesToNat, minUnbiasedExponent,
    maxUnbiasedExponent, zero]

theorem Compose_Decompose_nonzero (neg : Bool) (sig : Nat) (exp : Int)
    (hv : (Decimal.regularForm neg sig exp).Valid) (hsig : sig ≠ 0) :
    Decimal.Compose (Decimal.regularForm neg sig exp).Decompose
      = .ok (Decimal.regularForm neg sig exp) := by
  obtain ⟨h1, h2, h3⟩ := hv
  have h1n : ¬ (sig ≥ 10 ^ 34) := by omega
  have h2n : ¬ (exp - (exponentBias : Int) < minUnbiasedExponent ∨
      exp - (exponentBias : Int) > (maxUnbiasedExponent : Int)) := by
    simp only [exponentBias, minUnbiasedExponent, maxUnbiasedExponent, maxBiasedExponent] at h3 ⊢
    omega
  simp only [Decimal.Decompose, hsig, if_false, Decimal.Compose, if_true,
    bytesToNat_bigEndianBytes, h1n, h2n, sub_add_cancel]

/-! ## Special inputs -/

/-- C1: for `Exp`, `Exp2` and `Exp10`, a NaN is returned unchanged (same
payload), -Infinity gives +0, +Infinity gives +Infinity, and a zero of either
sign and any exponent gives +1. -/
theorem exp_special_inputs (H : Helpers) :
    (∀ (neg : Bool) (p : Option Payload),
        Exp H (.nanForm neg p) = .nanForm neg p ∧
        Exp2 H (.nanForm neg p) = .nanForm neg p ∧
        Exp10 H (.nanForm neg p) = .nanForm neg p) ∧
    (Exp H (inf true) = zero false ∧ Exp2 H (inf true) = zero false ∧
        Exp10 H (inf true) = zero false) ∧
    (Exp H (inf false) = inf false ∧ Exp2 H (inf false) = inf false ∧
        Exp10 H (inf false) = inf false) ∧
    (∀ (neg : Bool) (e : Int),
        Exp H (.regularForm neg 0 e) = one false ∧
        Exp2 H (.regularForm neg 0 e) = one false ∧
        Exp10 H (.regularForm neg 0 e) = one false) := by
  refine ⟨fun neg p => ?_, ?_, ?_, fun neg e => ?_⟩ <;>
    simp [Exp, Exp.staged, Exp2, Exp2.staged, Exp10, Exp10.staged, expSpecial, inf,
      Decimal.isSpecial, Decimal.IsNaN, Decimal.Signbit, Decimal.IsZero]

/-- C2: for `Log`, `Log2` and `Log10`, a zero of either sign (any exponent)
gives -Infinity, +Infinity gives +Infinity, and a NaN is returned unchanged
(same payload). -/
theorem log_special_inputs (H : Helpers) :
    (∀ (neg : Bool) (e : Int),
        Log H (.regularForm neg 0 e) = inf true ∧
        Log2 H (.regularForm neg 0 e) = inf true ∧
        Log10 H (.regularForm neg 0 e) = inf true) ∧
    (Log H (inf false) = inf false ∧ Log2 H (inf false) = inf false ∧
        Log10 H (inf false) = inf false) ∧
    (∀ (neg : Bool) (p : Option Payload),
        Log H (.nanForm neg p) = .nanForm neg p ∧
        Log2 H (.nanForm neg p) = .nanForm neg p ∧
        Log10 H (.nanForm neg p) = .nanForm neg p) := by
  refine ⟨fun neg e => ?_, ?_, fun neg p => ?_⟩ <;>
    simp [Log, Log.staged, Log2, Log2.staged, Log10, Log10.staged, inf,
      Decimal.isSpecial, Decimal.IsNaN, Decimal.Signbit, Decimal.IsZero]

/-- C3: for `Log`, `Log2` and `Log10`, a negative finite non-zero input gives
the NaN whose payload names the function's own operation and the category
`payloadValNegFinite`, and -Infinity gives the NaN with the function's own
operation and the category `payloadValNegInfinite`. -/
theorem log_negative_inputs (H : Helpers) (sig : Nat) (e : Int) (hsig : sig ≠ 0) :
    (Log H (.regularForm true sig e) = nan .payloadOpLog .payloadValNegFinite 0 ∧
      Log2 H (.regularForm true sig e) = nan .payloadOpLog2 .payloadValNegFinite 0 ∧
      Log10 H (.regularForm true sig e) = nan .payloadOpLog10 .payloadValNegFinite 0) ∧
    (Log H (inf true) = nan .payloadOpLog .payloadValNegInfinite 0 ∧
      Log2 H (inf true) = nan .payloadOpLog2 .payloadValNegInfinite 0 ∧
      Log10 H (inf true) = nan .payloadOpLog10 .payloadValNegInfinite 0) := by
  refine ⟨?_, ?_⟩ <;>
    simp [Log, Log.staged, Log2, Log2.staged, Log10, Log10.staged, inf, hsig,
      Decimal.isSpecial, Decimal.IsNaN, Decimal.Signbit, Decimal.IsZero]

/-- Witness of C3 at -5 (significand 5, unbiased exponent 0). -/
theorem log_negative_inputs_witness :
    (Log sampleHelpers (.regularForm true 5 6176) = nan .payloadOpLog .payloadValNegFinite 0 ∧
      Log2 sampleHelpers (.regularForm true 5 6176)
        = nan .payloadOpLog2 .payloadValNegFinite 0 ∧
      Log10 sampleHelpers (.regularForm true 5 6176)
        = nan .payloadOpLog10 .payloadValNegFinite 0) ∧
    (Log sampleHelpers (inf true) = nan .payloadOpLog .payloadValNegInfinite 0 ∧
      Log2 sampleHelpers (inf true) = nan .payloadOpLog2 .payloadValNegInfinite 0 ∧
      Log10 sampleHelpers (inf true) = nan .payloadOpLog10 .payloadValNegInfinite 0) :=
  log_negative_inputs sampleHelpers 5 6176 (by decide)

/-- C4: `Sqrt` returns a zero of either sign and any exponent unchanged,
+Infinity as +Infinity and a NaN unchanged; a negative finite non-zero input
gives the NaN tagged `payloadOpSqrt`, `payloadValNegFinite`, and -Infinity the
NaN tagged `payloadOpSqrt`, `payloadValNegInfinite`. -/
theorem sqrt_special_inputs (H : Helpers) (sig : Nat) (e : Int) (hsig : sig ≠ 0) :
    (∀ (neg : Bool) (e0 : Int), Sqrt H (.regularForm neg 0 e0) = .regularForm neg 0 e0) ∧
    Sqrt H (inf false) = inf false ∧
    (∀ (neg : Bool) (p : Option Payload), Sqrt H (.nanForm neg p) = .nanForm neg p) ∧
    Sqrt H (.regularForm true sig e) = nan .payloadOpSqrt .payloadValNegFinite 0 ∧
    Sqrt H (inf true) = nan .payloadOpSqrt .payloadValNegInfinite 0 := by
  refine ⟨fun neg e0 => ?_, ?_, fun neg p => ?_, ?_, ?_⟩ <;>
    simp [Sqrt, Sqrt.staged, inf, hsig,
      Decimal.isSpecial, Decimal.IsNaN, Decimal.Signbit, Decimal.IsZero]

/-- Witness of C4 at -5 (significand 5, unbiased exponent 0). -/
theorem sqrt_special_inputs_witness :
    (∀ (neg : Bool) (e0 : Int),
      Sqrt sampleHelpers (.regularForm neg 0 e0) = .regularForm neg 0 e0) ∧
    Sqrt sampleHelpers (inf false) = inf false ∧
    (∀ (neg : Bool) (p : Option Payload),
      Sqrt sampleHelpers (.nanForm neg p) = .nanForm neg p) ∧
    Sqrt sampleHelpers (.regularForm true 5 6176) = nan .payloadOpSqrt .payloadValNegFinite 0 ∧
    Sqrt sampleHelpers (inf true) = nan .payloadOpSqrt .payloadValNegInfinite 0 :=
  sqrt_special_inputs sampleHelpers 5 6176 (by decide)

/-! ## Integer powers -/

/-- C5, the code where it departs from the claim: on an integer `n` with
`maxUnbiasedExponent < n ≤ 6144` (unbiased exponent 0, positive) `Exp10` hands
the rounding engine significand 1, exponent 6111 and truncation flag 0, a pair
whose value `10 ^ 6111` is not `10 ^ n`. -/
theorem Exp10_integer_above_6111 (H : Helpers) (hlog : H.Log10Estimates) (n : Nat)
    (h1 : 6112 ≤ n) (h2 : n ≤ 6144) :
    Exp10.staged H (.regularForm false n exponentBias) = .round false ⟨1, 6111⟩ 0 ∧
      1 * 10 ^ 6111 ≠ 10 ^ n := by
  constructor
  · rw [Exp10_staged_integer H hlog n (by omega) (by omega)]
    have : min n maxUnbiasedExponent = 6111 := by
      simp only [maxUnbiasedExponent]
      omega
    rw [this]
    rfl
  · rw [one_mul]
    intro h
    have := Nat.pow_right_injective (le_refl 2 |>.trans (by norm_num : 2 ≤ 10)) h
    omega

/-- Witness of the evaluation for C5 at `n = 6112`. -/
theorem Exp10_integer_above_6111_witness :
    Exp10.staged sampleHelpers (.regularForm false 6112 exponentBias)
        = .round false ⟨1, 6111⟩ 0 ∧
      1 * 10 ^ 6111 ≠ 10 ^ 6112 :=
  Exp10_integer_above_6111 sampleHelpers sampleHelpers_log10 6112 (by decide) (by decide)

/-- C6, the code where it departs from the claim: on an integer `n` with
`6145 ≤ n ≤ 6150` (unbiased exponent 0, positive) `Exp10` returns the finite
value with significand 1 and biased exponent `maxBiasedExponent`, that is
`10 ^ 6111`, not +Infinity. -/
theorem Exp10_integer_6145_finite (H : Helpers) (hlog : H.Log10Estimates)
    (hred : H.ReduceKeepsFitting) (n : Nat) (h1 : 6145 ≤ n) (h2 : n ≤ 6150) :
    Exp10 H (.regularForm false n exponentBias) = .regularForm false 1 maxBiasedExponent ∧
      Exp10 H (.regularForm false n exponentBias) ≠ inf false := by
  have hst := Exp10_staged_integer H hlog n (by omega) h2
  have hmin : min n maxUnbiasedExponent = 6111 := by
    simp only [maxUnbiasedExponent]
    omega
  have hE : Exp10 H (.regularForm false n exponentBias)
      = .regularForm false 1 maxBiasedExponent := by
    simp only [Exp10, hst, hmin]
    rw [expRound_fitting H hred _ 1 _ (by norm_num) (by norm_num) (by norm_num)]
    rfl
  exact ⟨hE, by rw [hE]; simp [inf]⟩

/-- Witness of the evaluation for C6 at `n = 6145`. -/
theorem Exp10_integer_6145_finite_witness :
    Exp10 sampleHelpers (.regularForm false 6145 exponentBias)
        = .regularForm false 1 maxBiasedExponent ∧
      Exp10 sampleHelpers (.regularForm false 6145 exponentBias) ≠ inf false :=
  Exp10_integer_6145_finite sampleHelpers sampleHelpers_log10 sampleHelpers_reduce128 6145
    (by decide) (by decide)

/-- On an integer `n` with `1 ≤ n ≤ maxUnbiasedExponent` (unbiased exponent 0,
positive) `Exp10` hands the rounding engine significand 1, exponent `n` and
truncation flag 0, and returns the finite value with significand 1 and
unbiased exponent `n`, that is `10 ^ n`. -/
theorem Exp10_integer_exact (H : Helpers) (hlog : H.Log10Estimates)
    (hred : H.ReduceKeepsFitting) (n : Nat) (h1 : 1 ≤ n) (h2 : n ≤ 6111) :
    Exp10.staged H (.regularForm false n exponentBias) = .round false ⟨1, n⟩ 0 ∧
      Exp10 H (.regularForm false n exponentBias)
        = .regularForm false 1 ((n : Int) + exponentBias) := by
  have hst := Exp10_staged_integer H hlog n h1 (by omega)
  have hmin : min n maxUnbiasedExponent = n := by
    simp only [maxUnbiasedExponent]
    omega
  rw [hmin] at hst
  refine ⟨hst, ?_⟩
  simp only [Exp10, hst]
  exact expRound_fitting H hred _ 1 n (by norm_num) (by omega) (by omega)

/-- Witness of `Exp10_integer_exact` at `n = 3`: `Exp10(3) = 1E+3`. -/
theorem Exp10_integer_exact_witness :
    Exp10.staged sampleHelpers (.regularForm false 3 exponentBias)
        = .round false ⟨1, (3 : Nat)⟩ 0 ∧
      Exp10 sampleHelpers (.regularForm false 3 exponentBias)
        = .regularForm false 1 (((3 : Nat) : Int) + exponentBias) :=
  Exp10_integer_exact sampleHelpers sampleHelpers_log10 sampleHelpers_reduce128 3
    (by decide) (by decide)

/-- On an integer `n ≥ 6151` (unbiased exponent 0, positive) `Exp10` returns
+Infinity: by the magnitude pre-check when `log10` is above 4, and otherwise
by the check `dSigInt > maxUnbiasedExponent+39`. -/
theorem Exp10_integer_overflow (H : Helpers) (hlog : H.Log10Estimates) (n : Nat)
    (h1 : 6151 ≤ n) :
    Exp10 H (.regularForm false n exponentBias) = inf false := by
  have hn : n ≠ 0 := by omega
  have hsp : expSpecial (.regularForm false n exponentBias) = none := by
    simp [expSpecial, Decimal.isSpecial, Decimal.IsZero, hn]
  have hd : int16 ((exponentBias : Int) - exponentBias) = 0 := by simp [int16]
  have hl := hlog n (by omega)
  by_cases hc1 : (0 : Int) > 4 - H.log10 n
  · simp only [Exp10, Exp10.staged, hsp, Decimal.decompose, hd, hc1, if_true, overflowExit,
      Decimal.Signbit]
    simp
  · have hlt : n < 10 ^ 5 := by
      apply Nat.lt_pow_of_log_lt (by norm_num)
      omega
    have hw : uint (word n 0) = n := by
      simp only [uint, word]
      omega
    have hc2 : H.log10 n + 0 ≥ 0 := by omega
    have hgt : n > maxUnbiasedExponent + 39 := by
      simp only [maxUnbiasedExponent]
      omega
    simp only [Exp10, Exp10.staged, hsp, Decimal.decompose, hd, hc1, hc2, if_false,
      decide_True, if_true, splitInteger_exp_zero, hw, hgt, and_self, overflowExit,
      Decimal.Signbit]
    simp

/-- Witness of `Exp10_integer_overflow` at `n = 6151`. -/
theorem Exp10_integer_overflow_witness :
    Exp10 sampleHelpers (.regularForm false 6151 exponentBias) = inf false :=
  Exp10_integer_overflow sampleHelpers sampleHelpers_log10 6151 (by decide)

/-- C7: for every integer `n` with `1 ≤ n ≤ 112`, `Exp2` applied to the
positive Decimal with significand `n` and unbiased exponent 0 hands the
rounding engine significand `2 ^ n`, exponent 0 and truncation flag 0, and
returns the finite positive value with significand `2 ^ n` and unbiased
exponent 0. -/
theorem Exp2_small_integer (H : Helpers) (hlog : H.Log10Estimates)
    (hred : H.ReduceKeepsFitting) (n : Nat) (h1 : 1 ≤ n) (h2 : n ≤ 112) :
    Exp2.staged H (.regularForm false n exponentBias) = .round false ⟨2 ^ n, 0⟩ 0 ∧
      Exp2 H (.regularForm false n exponentBias) = .regularForm false (2 ^ n) exponentBias := by
  obtain ⟨hl0, hl4⟩ := log10_small H hlog n h1 (by omega)
  have hn : n ≠ 0 := by omega
  have hsp : expSpecial (.regularForm false n exponentBias) = none := by
    simp [expSpecial, Decimal.isSpecial, Decimal.IsZero, hn]
  have hw : uint (word n 0) = n := by
    simp only [uint, word]
    omega
  have hd : int16 ((exponentBias : Int) - exponentBias) = 0 := by simp [int16]
  have hc1 : ¬ ((0 : Int) > 5 - H.log10 n) := by omega
  have hc2 : H.log10 n + 0 ≥ 0 := by omega
  have hgt : ¬ (n > exponentBias + H.maxDigits) := by
    simp only [exponentBias]
    omega
  have hst : Exp2.staged H (.regularForm false n exponentBias) = .round false ⟨2 ^ n, 0⟩ 0 := by
    simp only [Exp2.staged, hsp, Decimal.decompose, hd, hc1, hc2, if_false, decide_True,
      if_true, splitInteger_exp_zero, splitFraction_zero, hw, hgt, and_false, ne_eq,
      not_true_eq_false, hn, not_false_eq_true, intPower_lt_128 n (by omega), Exp2.tail,
      reciprocal, Decimal.Signbit]
    have hle : ¬ ((0 : Int) > (maxUnbiasedExponent : Int) + (H.maxDigits : Int)) := by omega
    simp [hle]
  refine ⟨hst, ?_⟩
  have hp : 2 ^ n < 10 ^ 34 :=
    lt_of_le_of_lt (Nat.pow_le_pow_right (by norm_num) h2) (by norm_num)
  simp only [Exp2, hst]
  rw [expRound_fitting H hred _ (2 ^ n) 0 hp (by norm_num) (by norm_num)]
  simp

/-- Witness of C7 at `n = 10`: `Exp2(10) = 1024`. -/
theorem Exp2_small_integer_witness :
    Exp2.staged sampleHelpers (.regularForm false 10 exponentBias)
        = .round false ⟨2 ^ 10, 0⟩ 0 ∧
      Exp2 sampleHelpers (.regularForm false 10 exponentBias)
        = .regularForm false (2 ^ 10) exponentBias :=
  Exp2_small_integer sampleHelpers sampleHelpers_log10 sampleHelpers_reduce128 10
    (by decide) (by decide)

/-! ## Termination -/

/-- A loop defined by `whileLoop` terminates in the sense of `Terminates`. -/
theorem whileLoop_terminates {σ : Type} (cond : σ → Bool) (body : σ → σ) (rank : σ → Nat)
    (dec : ∀ s, cond s = true → rank (body s) < rank s) :
    Terminates cond body rank (whileLoop cond body rank dec) :=
  ⟨dec, fun s => whileFuel_whileLoop cond body rank dec _ s (Nat.lt_succ_self _)⟩

/-- C8: every loop of `Exp10`, `Exp2` and `Sqrt` terminates: each pass strictly
decreases the loop's rank, and run from any state with a bound of (rank + 1)
tests of the condition the loop finishes in the state that the total loop
function used by `Exp`, `Exp2`, `Exp10`, `Log`, `Log2`, `Log10` and `Sqrt`
gives.  The ranks are: the distance of `exp` from 0 (digit split, scaling by
10), the value still to divide (digit reversal and the div1e19 / div10000 /
div10 narrowing loops), `dSigInt` (the loop above `maxUnbiasedExponent`), what
is left of `shift` (the divide-by-10 / left-shift loop), and `8 - i` (`Sqrt`).
After a 256-bit divide by 10 the top word has at least one leading zero bit, so
each pass of the shift loop that does not `break` strictly decreases `shift`. -/
theorem loops_terminate :
    Terminates splitLoop.cond splitLoop.body splitLoop.rank splitLoop ∧
    Terminates scaleLoop.cond scaleLoop.body scaleLoop.rank scaleLoop ∧
    Terminates reverseLoop.cond reverseLoop.body reverseLoop.rank reverseLoop ∧
    Terminates Exp10.excessLoop.cond Exp10.excessLoop.body Exp10.excessLoop.rank
      Exp10.excessLoop ∧
    Terminates Exp2.shiftLoop.cond Exp2.shiftLoop.body Exp2.shiftLoop.rank Exp2.shiftLoop ∧
    Terminates Exp2.narrow1e19.cond Exp2.narrow1e19.body Exp2.narrow.rank Exp2.narrow1e19 ∧
    Terminates Exp2.narrow10000.cond Exp2.narrow10000.body Exp2.narrow.rank
      Exp2.narrow10000 ∧
    Terminates Exp2.narrow10.cond Exp2.narrow10.body Exp2.narrow.rank Exp2.narrow10 ∧
    (∀ H nrm, Terminates Sqrt.newton.cond (Sqrt.newton.body H nrm) Sqrt.newton.rank
      (Sqrt.newton H nrm)) ∧
    (∀ n, 1 ≤ LeadingZeros64 (word (uint256.div10 n).1 3)) ∧
    (∀ s, Exp2.shiftLoop.cond s = true →
        (Exp2.shiftLoop.body s).broke = true ∨ (Exp2.shiftLoop.body s).shift < s.shift) := by
  refine ⟨whileLoop_terminates _ _ _ _, whileLoop_terminates _ _ _ _,
    whileLoop_terminates _ _ _ _, whileLoop_terminates _ _ _ _, whileLoop_terminates _ _ _ _,
    whileLoop_terminates _ _ _ _, whileLoop_terminates _ _ _ _, whileLoop_terminates _ _ _ _,
    fun H nrm => whileLoop_terminates _ _ _ _, leadingZeros_after_div10, fun s h => ?_⟩
  have hz := leadingZeros_after_div10 s.sig
  simp only [Exp2.shiftLoop.cond, Bool.and_eq_true, decide_eq_true_eq] at h
  simp only [Exp2.shiftLoop.body]
  split
  · right
    simp only
    omega
  · left
    rfl

/-! ## Compose and Decompose -/

/-- C9: `Decompose` undoes `Compose` on the tuples of the compose test: a
non-zero significand `s < 10 ^ 34` in minimal big-endian bytes with an
in-range unbiased exponent `e`, the zero tuple `(0, neg, empty, 0)`, the
infinity tuple `(1, false, empty, 0)` and the NaN tuple `(2, false, empty, 0)`.
`Compose` returns no error and `Decompose` of the composed value is the same
tuple. -/
theorem Decompose_Compose (neg : Bool) (s : Nat) (e : Int) (hs0 : 0 < s) (hs : s < 10 ^ 34)
    (he1 : minUnbiasedExponent ≤ e) (he2 : e ≤ maxUnbiasedExponent) :
    composeDecompose ⟨0, neg, bigEndianBytes s, e⟩ = .ok ⟨0, neg, bigEndianBytes s, e⟩ ∧
    composeDecompose ⟨0, neg, [], 0⟩ = .ok ⟨0, neg, [], 0⟩ ∧
    composeDecompose ⟨1, false, [], 0⟩ = .ok ⟨1, false, [], 0⟩ ∧
    composeDecompose ⟨2, false, [], 0⟩ = .ok ⟨2, false, [], 0⟩ := by
  have hne : s ≠ 0 := by omega
  have h1 : ¬ (s ≥ 10 ^ 34) := by omega
  have h2 : ¬ (e < minUnbiasedExponent ∨ e > (maxUnbiasedExponent : Int)) := by omega
  refine ⟨?_, ?_, ?_, ?_⟩
  · simp only [composeDecompose, Decimal.Compose, bytesToNat_bigEndianBytes, h1, h2, if_true,
      if_false, Decimal.Decompose, hne, add_sub_cancel_right]
  · simp [composeDecompose, Decimal.Compose, bytesToNat, Decimal.Decompose,
      minUnbiasedExponent, maxUnbiasedExponent]
  · simp [composeDecompose, Decimal.Compose, Decimal.Decompose]
  · simp [composeDecompose, Decimal.Compose, Decimal.Decompose]

/-- Witness of C9 at the tuple of 1000 (bytes `03 e8`), exponent -2. -/
theorem Decompose_Compose_witness :
    composeDecompose ⟨0, true, bigEndianBytes 1000, -2⟩
        = .ok ⟨0, true, bigEndianBytes 1000, -2⟩ ∧
    composeDecompose ⟨0, true, [], 0⟩ = .ok ⟨0, true, [], 0⟩ ∧
    composeDecompose ⟨1, false, [], 0⟩ = .ok ⟨1, false, [], 0⟩ ∧
    composeDecompose ⟨2, false, [], 0⟩ = .ok ⟨2, false, [], 0⟩ :=
  Decompose_Compose true 1000 (-2) (by decide) (by norm_num) (by decide) (by decide)

/-- C10 as stated fails: the valid zero with biased exponent 0 decomposes to
`(0, false, empty, 0)`, which composes to the zero with biased exponent
`exponentBias`, not to the value itself. -/
theorem Compose_Decompose_zero_differs :
    (Decimal.regularForm false 0 0).Valid ∧
    Decimal.Compose (Decimal.regularForm false 0 0).Decompose
      = .ok (Decimal.regularForm false 0 6176) ∧
    Decimal.Compose (Decimal.regularForm false 0 0).Decompose
      ≠ .ok (Decimal.regularForm false 0 0) := by
  refine ⟨?_, ?_, ?_⟩
  · simp [Decimal.Valid, maxBiasedExponent]
  · simp [Decimal.Compose, Decimal.Decompose, bytesToNat, minUnbiasedExponent,
      maxUnbiasedExponent, exponentBias]
  · simp [Decimal.Compose, Decimal.Decompose, bytesToNat, minUnbiasedExponent,
      maxUnbiasedExponent, exponentBias]

/-- C10, amended: composing the tuple that `Decompose` returns succeeds; it
gives back a valid non-zero finite value and an infinity unchanged; for a zero
(whose tuple has an empty significand and exponent 0) it gives the zero of the
same sign with unbiased exponent 0; for a NaN it gives a NaN of the same
sign. -/
theorem Compose_Decompose (neg : Bool) (sig : Nat) (exp : Int)
    (hv : (Decimal.regularForm neg sig exp).Valid) (hsig : sig ≠ 0) :
    Decimal.Compose (Decimal.regularForm neg sig exp).Decompose
      = .ok (Decimal.regularForm neg sig exp) ∧
    (∀ (n : Bool) (e : Int),
      (Decimal.regularForm n 0 e).Decompose = ⟨0, n, [], 0⟩ ∧
      Decimal.Compose (Decimal.regularForm n 0 e).Decompose = .ok (zero n)) ∧
    (∀ n : Bool, Decimal.Compose (Decimal.infForm n).Decompose = .ok (Decimal.infForm n)) ∧
    (∀ (n : Bool) (p : Option Payload),
      Decimal.Compose (Decimal.nanForm n p).Decompose = .ok (Decimal.nanForm n none)) := by
  obtain ⟨h1, h2, h3⟩ := hv
  have h1n : ¬ (sig ≥ 10 ^ 34) := by omega
  have h2n : ¬ (exp - (exponentBias : Int) < minUnbiasedExponent ∨
      exp - (exponentBias : Int) > (maxUnbiasedExponent : Int)) := by
    simp only [exponentBias, minUnbiasedExponent, maxUnbiasedExponent, maxBiasedExponent] at h3 ⊢
    omega
  refine ⟨?_, fun n e => ?_, fun n => ?_, fun n p => ?_⟩
  · simp only [Decimal.Decompose, hsig, if_false, Decimal.Compose, if_true,
      bytesToNat_bigEndianBytes, h1n, h2n, sub_add_cancel]
  · simp [Decimal.Compose, Decimal.Decompose, bytesToNat, minUnbiasedExponent,
      maxUnbiasedExponent, zero]
  · simp [Decimal.Compose, Decimal.Decompose]
  · simp [Decimal.Compose, Decimal.Decompose]

/-- Witness of the amended C10 at -1000 (significand 1000, unbiased exponent 0). -/
theorem Compose_Decompose_witness :
    Decimal.Compose (Decimal.regularForm true 1000 6176).Decompose
      = .ok (Decimal.regularForm true 1000 6176) ∧
    (∀ (n : Bool) (e : Int),
      (Decimal.regularForm n 0 e).Decompose = ⟨0, n, [], 0⟩ ∧
      Decimal.Compose (Decimal.regularForm n 0 e).Decompose = .ok (zero n)) ∧
    (∀ n : Bool, Decimal.Compose (Decimal.infForm n).Decompose = .ok (Decimal.infForm n)) ∧
    (∀ (n : Bool) (p : Option Payload),
      Decimal.Compose (Decimal.nanForm n p).Decompose = .ok (Decimal.nanForm n none)) :=
  Compose_Decompose true 1000 6176 (by simp [Decimal.Valid, maxBiasedExponent]) (by decide)

/-! ## Exits of the exponentials -/

theorem overflowExit_regularForm (neg : Bool) (sig : Nat) (exp : Int) :
    overflowExit (.regularForm neg sig exp) = if neg then zero false else inf false := by
  simp [overflowExit, Decimal.Signbit]

/-- The rounding step of the exponentials returns the overflow value or a
non-negative finite value. -/
theorem expRound_cases (H : Helpers) (d : Decimal) (res : decomposed128) (trunc : Int) :
    expRound H d res trunc = overflowExit d ∨
      ∃ sig exp, expRound H d res trunc = compose false sig exp := by
  unfold expRound
  simp only
  split
  · exact Or.inl rfl
  · exact Or.inr ⟨_, _, rfl⟩

theorem staged_ite (d : Decimal) (c : Prop) [Decidable c] (a b : Staged)
    (ha : ∀ r, a = .done r → r = overflowExit d)
    (hb : ∀ r, b = .done r → r = overflowExit d) :
    ∀ r, (if c then a else b) = .done r → r = overflowExit d := by
  intro r h
  split at h
  · exact ha r h
  · exact hb r h

theorem staged_overflow (d : Decimal) :
    ∀ r, Staged.done (overflowExit d) = .done r → r = overflowExit d := by
  intro r h
  cases h
  rfl

theorem staged_round (d : Decimal) (neg : Bool) (res : decomposed128) (t : Int) :
    ∀ r, Staged.round neg res t = .done r → r = overflowExit d := by
  intro r h
  cases h

/-- After the special-input prologue every early return of `Exp` is the
overflow value. -/
theorem Exp_staged_done (H : Helpers) (d : Decimal) (r : Decimal)
    (h : Exp.staged H d = .done r) : expSpecial d = some r ∨ r = overflowExit d := by
  unfold Exp.staged at h
  split at h
  · next r0 h0 =>
    left
    rw [h0]
    simpa using h
  · right
    revert r
    dsimp only
    repeat' first
      | apply staged_ite
      | apply staged_overflow
      | apply staged_round

/-- After the special-input prologue every early return of `Exp10` is the
overflow value. -/
theorem Exp10_staged_done (H : Helpers) (d : Decimal) (r : Decimal)
    (h : Exp10.staged H d = .done r) : expSpecial d = some r ∨ r = overflowExit d := by
  unfold Exp10.staged at h
  split at h
  · next r0 h0 =>
    left
    rw [h0]
    simpa using h
  · right
    revert r
    dsimp only
    repeat' first
      | apply staged_ite
      | apply staged_overflow
      | apply staged_round

/-- After the special-input prologue every early return of `Exp2` is the
overflow value. -/
theorem Exp2_staged_done (H : Helpers) (d : Decimal) (r : Decimal)
    (h : Exp2.staged H d = .done r) : expSpecial d = some r ∨ r = overflowExit d := by
  unfold Exp2.staged at h
  split at h
  · next r0 h0 =>
    left
    rw [h0]
    simpa using h
  · right
    revert r
    dsimp only [Exp2.tail]
    repeat' first
      | apply staged_ite
      | apply staged_overflow
      | apply staged_round

theorem expSpecial_regular (neg : Bool) (s : Nat) (b : Int) (hs : s ≠ 0) :
    expSpecial (.regularForm neg s b) = none := by
  simp [expSpecial, Decimal.isSpecial, Decimal.IsZero, hs]

theorem overflowExit_signbit (d : Decimal) : (overflowExit d).Signbit = false := by
  unfold overflowExit
  split <;> rfl

theorem expSpecial_signbit (d r : Decimal) (hd : d.IsNaN = false)
    (h : expSpecial d = some r) : r.Signbit = false := by
  unfold expSpecial at h
  split_ifs at h <;> simp_all <;> subst h <;> rfl

theorem expRound_signbit (H : Helpers) (d : Decimal) (res : decomposed128) (trunc : Int) :
    (expRound H d res trunc).Signbit = false := by
  rcases expRound_cases H d res trunc with h | ⟨sig, exp, h⟩
  · rw [h]
    exact overflowExit_signbit d
  · rw [h]
    rfl

/-- C13: for a finite non-zero `d` with significand `s` and unbiased exponent
`e`: if `e > 5 - log10(s)` then `Exp(d)` and `Exp2(d)` are +Infinity for
positive `d` and +0 for negative `d`; if `e > 4 - log10(s)` then so is
`Exp10(d)`; and every later exit of the three functions that is not the final
`compose` (each early return, and the check after `reduce128`) returns the
same: +Infinity for positive `d`, +0 for negative `d`. -/
theorem exp_magnitude_precheck (H : Helpers) (neg : Bool) (s : Nat) (e : Int) (hs : s ≠ 0)
    (he1 : -6176 ≤ e) (he2 : e ≤ 6111) :
    (e > 5 - H.log10 s →
      Exp H (.regularForm neg s (e + exponentBias)) = (if neg then zero false else inf false) ∧
      Exp2 H (.regularForm neg s (e + exponentBias))
        = (if neg then zero false else inf false)) ∧
    (e > 4 - H.log10 s →
      Exp10 H (.regularForm neg s (e + exponentBias))
        = (if neg then zero false else inf false)) ∧
    (∀ r, Exp.staged H (.regularForm neg s (e + exponentBias)) = .done r →
      r = (if neg then zero false else inf false)) ∧
    (∀ r, Exp2.staged H (.regularForm neg s (e + exponentBias)) = .done r →
      r = (if neg then zero false else inf false)) ∧
    (∀ r, Exp10.staged H (.regularForm neg s (e + exponentBias)) = .done r →
      r = (if neg then zero false else inf false)) ∧
    (∀ (res : decomposed128) (trunc : Int),
      (H.reduce128 false res.sig (int16 (res.exp + exponentBias)) trunc).2 > maxBiasedExponent →
      expRound H (.regularForm neg s (e + exponentBias)) res trunc
        = (if neg then zero false else inf false)) := by
  have hsp := expSpecial_regular neg s (e + exponentBias) hs
  have hov := overflowExit_regularForm neg s (e + exponentBias)
  have hd : int16 (e + (exponentBias : Int) - exponentBias) = e := by
    rw [add_sub_cancel_right]
    exact int16_of_range e (by omega) (by omega)
  refine ⟨fun h => ⟨?_, ?_⟩, fun h => ?_, fun r hr => ?_, fun r hr => ?_, fun r hr => ?_,
    fun res trunc h => ?_⟩
  · simp only [Exp, Exp.staged, hsp, Decimal.decompose, hd, h, if_true, hov]
  · simp only [Exp2, Exp2.staged, hsp, Decimal.decompose, hd, h, if_true, hov]
  · simp only [Exp10, Exp10.staged, hsp, Decimal.decompose, hd, h, if_true, hov]
  · rcases Exp_staged_done H _ r hr with h | h
    · rw [hsp] at h
      cases h
    · rw [h, hov]
  · rcases Exp2_staged_done H _ r hr with h | h
    · rw [hsp] at h
      cases h
    · rw [h, hov]
  · rcases Exp10_staged_done H _ r hr with h | h
    · rw [hsp] at h
      cases h
    · rw [h, hov]
  · simp only [expRound, h, if_true, hov]

/-- Witness of C13 at `d = -1E+6` (significand 1, unbiased exponent 6): all
three exponentials return +0. -/
theorem exp_magnitude_precheck_witness :
    Exp sampleHelpers (.regularForm true 1 ((6 : Int) + exponentBias)) = zero false ∧
    Exp2 sampleHelpers (.regularForm true 1 ((6 : Int) + exponentBias)) = zero false ∧
    Exp10 sampleHelpers (.regularForm true 1 ((6 : Int) + exponentBias)) = zero false := by
  have h := exp_magnitude_precheck sampleHelpers true 1 6 (by decide) (by decide) (by decide)
  have h5 : (6 : Int) > 5 - sampleHelpers.log10 1 := by simp [sampleHelpers]
  have h4 : (6 : Int) > 4 - sampleHelpers.log10 1 := by simp [sampleHelpers]
  exact ⟨by simpa using (h.1 h5).1, by simpa using (h.1 h5).2, by simpa using h.2.1 h4⟩

/-- C18: for every input `d` that is not a NaN, `Exp(d)`, `Exp2(d)` and
`Exp10(d)` have the sign bit clear. -/
theorem exp_never_negative (H : Helpers) (d : Decimal) (hd : d.IsNaN = false) :
    (Exp H d).Signbit = false ∧ (Exp2 H d).Signbit = false ∧
      (Exp10 H d).Signbit = false := by
  refine ⟨?_, ?_, ?_⟩
  · unfold Exp
    split
    · next r h =>
      rcases Exp_staged_done H d r h with h1 | h1
      · exact expSpecial_signbit d r hd h1
      · rw [h1]
        exact overflowExit_signbit d
    · exact expRound_signbit H d _ _
  · unfold Exp2
    split
    · next r h =>
      rcases Exp2_staged_done H d r h with h1 | h1
      · exact expSpecial_signbit d r hd h1
      · rw [h1]
        exact overflowExit_signbit d
    · exact expRound_signbit H d _ _
  · unfold Exp10
    split
    · next r h =>
      rcases Exp10_staged_done H d r h with h1 | h1
      · exact expSpecial_signbit d r hd h1
      · rw [h1]
        exact overflowExit_signbit d
    · exact expRound_signbit H d _ _

/-- Witness of C18 at `d = -Infinity`. -/
theorem exp_never_negative_witness :
    (Exp sampleHelpers (.infForm true)).Signbit = false ∧
      (Exp2 sampleHelpers (.infForm true)).Signbit = false ∧
      (Exp10 sampleHelpers (.infForm true)).Signbit = false :=
  exp_never_negative sampleHelpers (.infForm true) rfl

/-! ## Sqrt -/

/-- What `Log10Estimates` gives for a significand below `10 ^ 34`. -/
theorem log10_range (H : Helpers) (hlog : H.Log10Estimates) (s : Nat) (hs0 : 0 < s)
    (hs : s < 10 ^ 34) : 0 ≤ H.log10 s ∧ H.log10 s ≤ 34 := by
  have h := hlog s hs0
  have h3 : Nat.log 10 s < 34 := Nat.log_lt_of_lt_pow (by omega) hs
  omega

/-- C16: for a finite positive `d` with significand `s` and unbiased exponent
`e`, the normalisation of `Sqrt` keeps the significand, leaves exponents
`nrm.exp` and `E` with `nrm.exp + E = e`, so that
`nrm.sig * 10 ^ (nrm.exp + E) = s * 10 ^ e`, and makes `E` even, so that the
truncating division `E / 2` of the source is an exact halving, also for
negative `E`. -/
theorem Sqrt_normalise_exact (H : Helpers) (hlog : H.Log10Estimates) (s : Nat) (e : Int)
    (hs0 : 0 < s) (hs : s < 10 ^ 34) (he1 : -6176 ≤ e) (he2 : e ≤ 6111) :
    (Sqrt.normalise H (.regularForm false s (e + exponentBias))).nrm.sig = s ∧
    (Sqrt.normalise H (.regularForm false s (e + exponentBias))).nrm.exp
      + (Sqrt.normalise H (.regularForm false s (e + exponentBias))).dExp = e ∧
    ((Sqrt.normalise H (.regularForm false s (e + exponentBias))).nrm.sig : ℚ)
      * 10 ^ ((Sqrt.normalise H (.regularForm false s (e + exponentBias))).nrm.exp
        + (Sqrt.normalise H (.regularForm false s (e + exponentBias))).dExp)
      = (s : ℚ) * 10 ^ e ∧
    (Sqrt.normalise H (.regularForm false s (e + exponentBias))).dExp % 2 = 0 ∧
    2 * Int.tdiv (Sqrt.normalise H (.regularForm false s (e + exponentBias))).dExp 2
      = (Sqrt.normalise H (.regularForm false s (e + exponentBias))).dExp := by
  obtain ⟨hl0, hl1⟩ := log10_range H hlog s hs0 hs
  have h1 : int16 (H.log10 s) = H.log10 s := int16_of_range _ (by omega) (by omega)
  have hd : int16 (e + (exponentBias : Int) - exponentBias) = e := by
    rw [add_sub_cancel_right]
    exact int16_of_range e (by omega) (by omega)
  have h2 : int16 (e + H.log10 s) = e + H.log10 s := int16_of_range _ (by omega) (by omega)
  have h3 : int16 (-H.log10 s) = -H.log10 s := int16_of_range _ (by omega) (by omega)
  have h4 : int16 (-H.log10 s - 1) = -H.log10 s - 1 :=
    int16_of_range _ (by omega) (by omega)
  have h5 : int16 (e + H.log10 s + 1) = e + H.log10 s + 1 :=
    int16_of_range _ (by omega) (by omega)
  have key : (Sqrt.normalise H (.regularForm false s (e + exponentBias))).nrm.sig = s ∧
      (Sqrt.normalise H (.regularForm false s (e + exponentBias))).nrm.exp
        + (Sqrt.normalise H (.regularForm false s (e + exponentBias))).dExp = e ∧
      (Sqrt.normalise H (.regularForm false s (e + exponentBias))).dExp % 2 = 0 := by
    simp only [Sqrt.normalise, Decimal.decompose, h1, hd, h2]
    split
    · next hpar =>
      simp only [h3]
      exact ⟨trivial, by omega, hpar⟩
    · next hpar =>
      simp only [h3, h4, h5]
      exact ⟨trivial, by omega, by omega⟩
  obtain ⟨k1, k2, k3⟩ := key
  refine ⟨k1, k2, ?_, k3, ?_⟩
  · rw [k1, k2]
  · exact Int.mul_tdiv_cancel' (Int.dvd_of_emod_eq_zero k3)

/-- Witness of C16 at `d = 0.004` (significand 4, unbiased exponent -3). -/
theorem Sqrt_normalise_exact_witness :
    (Sqrt.normalise sampleHelpers (.regularForm false 4 ((-3 : Int) + exponentBias))).nrm.sig
      = 4 ∧
    (Sqrt.normalise sampleHelpers (.regularForm false 4 ((-3 : Int) + exponentBias))).nrm.exp
      + (Sqrt.normalise sampleHelpers (.regularForm false 4 ((-3 : Int) + exponentBias))).dExp
      = -3 ∧
    ((Sqrt.normalise sampleHelpers
        (.regularForm false 4 ((-3 : Int) + exponentBias))).nrm.sig : ℚ)
      * 10 ^ ((Sqrt.normalise sampleHelpers
          (.regularForm false 4 ((-3 : Int) + exponentBias))).nrm.exp
        + (Sqrt.normalise sampleHelpers
          (.regularForm false 4 ((-3 : Int) + exponentBias))).dExp)
      = ((4 : Nat) : ℚ) * 10 ^ (-3 : Int) ∧
    (Sqrt.normalise sampleHelpers (.regularForm false 4 ((-3 : Int) + exponentBias))).dExp % 2
      = 0 ∧
    2 * Int.tdiv
        (Sqrt.normalise sampleHelpers (.regularForm false 4 ((-3 : Int) + exponentBias))).dExp 2
      = (Sqrt.normalise sampleHelpers
          (.regularForm false 4 ((-3 : Int) + exponentBias))).dExp :=
  Sqrt_normalise_exact sampleHelpers sampleHelpers_log10 4 (-3) (by decide) (by norm_num)
    (by decide) (by decide)

/-- The loop of `Sqrt` started at `i` applies the Newton step `8 - i` times. -/
theorem newton_iterate (H : Helpers) (nrm : decomposed128) (k : Nat) :
    ∀ (i : Nat) (tmp : decomposed128) (x : decomposed128 × Int), i + k = 8 →
      (Sqrt.newton H nrm ⟨i, tmp, x.1, x.2⟩).res = ((Sqrt.step H nrm)^[k] x).1 ∧
      (Sqrt.newton H nrm ⟨i, tmp, x.1, x.2⟩).trunc = ((Sqrt.step H nrm)^[k] x).2 := by
  induction k with
  | zero =>
    intro i tmp x h
    have hc : Sqrt.newton.cond ⟨i, tmp, x.1, x.2⟩ = false := by
      simp only [Sqrt.newton.cond, decide_eq_false_iff_not]
      omega
    unfold Sqrt.newton
    rw [whileLoop_of_false _ _ _ _ _ hc]
    exact ⟨rfl, rfl⟩
  | succ k ih =>
    intro i tmp x h
    have hc : Sqrt.newton.cond ⟨i, tmp, x.1, x.2⟩ = true := by
      simp only [Sqrt.newton.cond, decide_eq_true_eq]
      omega
    have := ih (i + 1) (H.quo nrm x.1 x.2).1 (Sqrt.step H nrm x) (by omega)
    unfold Sqrt.newton at this ⊢
    rw [whileLoop_of_true _ _ _ _ _ hc, Function.iterate_succ_apply]
    exact this

/-- C17: for a finite positive `d`, the value `Sqrt` hands to the rounding
engine is the 8th iterate of the Newton step `x <- 1/2 * (x + nrm / x)` (built
from `quo`, `add` and `mul`, each given the truncation flag the one before
returned) started at the linear estimate `x0 = nrm * mul + add`, with
`dExp / 2` added to its exponent; the number of iterations is 8 for every `d`. -/
theorem Sqrt_eight_newton_steps (H : Helpers) (s : Nat) (b : Int) (hs : s ≠ 0) :
    Sqrt.staged H (.regularForm false s b) =
      .round false
        ⟨((Sqrt.step H (Sqrt.normalise H (.regularForm false s b)).nrm)^[8]
            (Sqrt.estimate H (Sqrt.normalise H (.regularForm false s b)))).1.sig,
          int16 (((Sqrt.step H (Sqrt.normalise H (.regularForm false s b)).nrm)^[8]
            (Sqrt.estimate H (Sqrt.normalise H (.regularForm false s b)))).1.exp
            + Int.tdiv (Sqrt.normalise H (.regularForm false s b)).dExp 2)⟩
        ((Sqrt.step H (Sqrt.normalise H (.regularForm false s b)).nrm)^[8]
          (Sqrt.estimate H (Sqrt.normalise H (.regularForm false s b)))).2 := by
  have hn := newton_iterate H (Sqrt.normalise H (.regularForm false s b)).nrm 8 0 ⟨0, 0⟩
    (Sqrt.estimate H (Sqrt.normalise H (.regularForm false s b))) rfl
  simp only [Sqrt.staged, Decimal.isSpecial, Decimal.IsZero, Decimal.Signbit, beq_iff_eq, hs,
    if_false, Bool.false_eq_true]
  simp only [Sqrt.estimate] at hn
  rw [hn.1, hn.2]
  rfl

/-- Witness of C17 at `d = 4`. -/
theorem Sqrt_eight_newton_steps_witness :
    Sqrt.staged sampleHelpers (.regularForm false 4 6176) =
      .round false
        ⟨((Sqrt.step sampleHelpers
            (Sqrt.normalise sampleHelpers (.regularForm false 4 6176)).nrm)^[8]
            (Sqrt.estimate sampleHelpers
              (Sqrt.normalise sampleHelpers (.regularForm false 4 6176)))).1.sig,
          int16 (((Sqrt.step sampleHelpers
            (Sqrt.normalise sampleHelpers (.regularForm false 4 6176)).nrm)^[8]
            (Sqrt.estimate sampleHelpers
              (Sqrt.normalise sampleHelpers (.regularForm false 4 6176)))).1.exp
            + Int.tdiv (Sqrt.normalise sampleHelpers (.regularForm false 4 6176)).dExp 2)⟩
        ((Sqrt.step sampleHelpers
          (Sqrt.normalise sampleHelpers (.regularForm false 4 6176)).nrm)^[8]
          (Sqrt.estimate sampleHelpers
            (Sqrt.normalise sampleHelpers (.regularForm false 4 6176)))).2 :=
  Sqrt_eight_newton_steps sampleHelpers 4 6176 (by decide)

/-! ## Compose: rejected tuples -/

/-- C11: on a finite-form tuple `Compose` returns an error exactly when the
significand bytes decode to `10 ^ 34` or more or the unbiased exponent is
outside `[minUnbiasedExponent, maxUnbiasedExponent]` (the significand error
first, then the exponent error), and it returns no error on the tuple that
`Decompose` gives for a value of the type. -/
theorem Compose_rejects (v : Decimal) (hv : v.Valid) :
    (∀ t : Tuple, t.form = 0 →
      ((∃ err, Decimal.Compose t = .error err) ↔
        (bytesToNat t.significand ≥ 10 ^ 34 ∨ t.exponent < minUnbiasedExponent ∨
          t.exponent > maxUnbiasedExponent))) ∧
    (∀ t : Tuple, t.form = 0 → bytesToNat t.significand ≥ 10 ^ 34 →
      Decimal.Compose t = .error .significandTooLarge) ∧
    (∀ t : Tuple, t.form = 0 → bytesToNat t.significand < 10 ^ 34 →
      (t.exponent < minUnbiasedExponent ∨ t.exponent > maxUnbiasedExponent) →
      Decimal.Compose t = .error .exponentOutOfRange) ∧
    (∃ w, Decimal.Compose v.Decompose = .ok w) := by
  refine ⟨fun t ht => ?_, fun t ht h => ?_, fun t ht h1 h2 => ?_, ?_⟩
  · unfold Decimal.Compose
    simp only [ht, if_true]
    split
    · next h => exact ⟨fun _ => Or.inl h, fun _ => ⟨_, rfl⟩⟩
    · next h =>
      split
      · next h2 => exact ⟨fun _ => Or.inr h2, fun _ => ⟨_, rfl⟩⟩
      · next h2 =>
        constructor
        · rintro ⟨err, herr⟩
          cases herr
        · rintro (h3 | h3)
          · exact absurd h3 h
          · exact absurd h3 h2
  · simp only [Decimal.Compose, ht, if_true, h]
  · have h1n : ¬ (bytesToNat t.significand ≥ 10 ^ 34) := by omega
    simp only [Decimal.Compose, ht, if_true, h1n, if_false, h2]
  · cases v with
    | regularForm neg sig exp =>
      by_cases hsig : sig = 0
      · subst hsig
        exact ⟨_, ((Compose_Decompose_zero neg exp))⟩
      · exact ⟨_, Compose_Decompose_nonzero neg sig exp hv hsig⟩
    | infForm neg => exact ⟨.infForm neg, by simp [Decimal.Compose, Decimal.Decompose]⟩
    | nanForm neg p => exact ⟨.nanForm neg none, by simp [Decimal.Compose, Decimal.Decompose]⟩

/-- Witness of C11 at the value -1000. -/
theorem Compose_rejects_witness :
    (∀ t : Tuple, t.form = 0 →
      ((∃ err, Decimal.Compose t = .error err) ↔
        (bytesToNat t.significand ≥ 10 ^ 34 ∨ t.exponent < minUnbiasedExponent ∨
          t.exponent > maxUnbiasedExponent))) ∧
    (∀ t : Tuple, t.form = 0 → bytesToNat t.significand ≥ 10 ^ 34 →
      Decimal.Compose t = .error .significandTooLarge) ∧
    (∀ t : Tuple, t.form = 0 → bytesToNat t.significand < 10 ^ 34 →
      (t.exponent < minUnbiasedExponent ∨ t.exponent > maxUnbiasedExponent) →
      Decimal.Compose t = .error .exponentOutOfRange) ∧
    (∃ w, Decimal.Compose (Decimal.regularForm true 1000 6176).Decompose = .ok w) :=
  Compose_rejects (.regularForm true 1000 6176) (by simp [Decimal.Valid, maxBiasedExponent])

/-! ## The integer/fraction split -/

theorem pow10_le_38 (j : Nat) (h : j ≤ 38) : 10 ^ j < 2 ^ 128 :=
  lt_of_le_of_lt (Nat.pow_le_pow_right (by norm_num) h) (by norm_num)

theorem push_lt (a b j : Nat) (hb : b < 10 ^ j) : b * 10 + a % 10 < 10 ^ (j + 1) := by
  have h := Nat.mod_lt a (by norm_num : 10 > 0)
  rw [pow_succ]
  omega

theorem revAcc_lt (k : Nat) : ∀ (a b j : Nat), b < 10 ^ j → revAcc k a b < 10 ^ (j + k) := by
  induction k with
  | zero => intro a b j h; simpa [revAcc] using h
  | succ k ih =>
    intro a b j h
    have := ih (a / 10) (b * 10 + a % 10) (j + 1) (push_lt a b j h)
    rw [revAcc]
    rwa [show j + (k + 1) = j + 1 + k by omega]

theorem revAcc_add (k : Nat) : ∀ (a b : Nat), revAcc k a b = b * 10 ^ k + revAcc k a 0 := by
  induction k with
  | zero => intro a b; simp [revAcc]
  | succ k ih =>
    intro a b
    rw [revAcc, revAcc, ih (a / 10) (b * 10 + a % 10), ih (a / 10) (0 * 10 + a % 10)]
    ring

theorem revAcc_zero (j : Nat) : ∀ c : Nat, revAcc j 0 c = c * 10 ^ j := by
  induction j with
  | zero => intro c; simp [revAcc]
  | succ j ih =>
    intro c
    rw [revAcc, Nat.zero_div, Nat.zero_mod, ih]
    ring

theorem revAcc_split (m : Nat) :
    ∀ (j a b : Nat), revAcc (m + j) a b = revAcc j (a / 10 ^ m) (revAcc m a b) := by
  induction m with
  | zero => intro j a b; simp [revAcc]
  | succ m ih =>
    intro j a b
    rw [show m + 1 + j = (m + j) + 1 by omega, revAcc, ih, revAcc, Nat.div_div_eq_div_mul,
      pow_succ']

/-- Padding the reversed number with leading zeros multiplies the result by a
power of ten. -/
theorem revAcc_pad (m j a : Nat) (ha : a < 10 ^ m) :
    revAcc (m + j) a 0 = revAcc m a 0 * 10 ^ j := by
  rw [revAcc_split, Nat.div_eq_of_lt ha, revAcc_zero]

/-- Reversing twice gives back the low `k` digits. -/
theorem revAcc_revAcc (k : Nat) :
    ∀ (j a b : Nat), b < 10 ^ j →
      revAcc (k + j) (revAcc k a b) 0 = a % 10 ^ k * 10 ^ j + revAcc j b 0 := by
  induction k with
  | zero => intro j a b _; simp [revAcc, Nat.mod_one]
  | succ k ih =>
    intro j a b hb
    have hb1 := push_lt a b j hb
    have h1 := ih (j + 1) (a / 10) (b * 10 + a % 10) hb1
    have h2 : revAcc (j + 1) (b * 10 + a % 10) 0 = a % 10 * 10 ^ j + revAcc j b 0 := by
      have hm := Nat.mod_lt a (by norm_num : 10 > 0)
      have hd : (b * 10 + a % 10) / 10 = b := by omega
      have hr : (b * 10 + a % 10) % 10 = a % 10 := by omega
      rw [revAcc, hd, hr, revAcc_add]
      ring
    have hmod : a % 10 ^ (k + 1) = a % 10 + 10 * (a / 10 % 10 ^ k) := by
      rw [pow_succ', Nat.mod_mul]
    rw [revAcc, show k + 1 + j = k + (j + 1) by omega, h1, h2, hmod]
    ring

/-- One pass of the digit-loop body without overflow. -/
theorem moveDigit_eq (a b j : Nat) (hb : b < 10 ^ j) (hj : j + 1 ≤ 38) :
    moveDigit a b = (a / 10, b * 10 + a % 10) := by
  have h1 := push_lt a b j hb
  have h2 := pow10_le_38 (j + 1) hj
  have h3 : b * 10 < 2 ^ 128 := by omega
  have h4 : b * 10 + a % 10 < 2 ^ 128 := by omega
  simp only [moveDigit, uint128.div10, uint128.mul64, uint128.add64, Nat.mod_eq_of_lt h3,
    Nat.mod_eq_of_lt h4]

/-- The loop `for exp < 0` started at exponent `-k` moves the last `k` digits
of `sig` to `dSig` in reverse order. -/
theorem splitLoop_eq (k : Nat) :
    ∀ (a b j : Nat), b < 10 ^ j → j + k ≤ 38 →
      splitLoop ⟨a, b, -(k : Int)⟩ = ⟨a / 10 ^ k, revAcc k a b, 0⟩ := by
  induction k with
  | zero =>
    intro a b j _ _
    simpa [revAcc] using splitLoop_done a b 0 (le_refl 0)
  | succ k ih =>
    intro a b j hb hj
    have hc : splitLoop.cond ⟨a, b, -((k + 1 : Nat) : Int)⟩ = true := by
      simp only [splitLoop.cond, decide_eq_true_eq]
      omega
    have hi : int16 (-((k + 1 : Nat) : Int) + 1) = -(k : Int) := by
      rw [int16_of_range _ (by omega) (by omega)]
      omega
    have hm := moveDigit_eq a b j hb (by omega)
    have hstep : splitLoop ⟨a, b, -((k + 1 : Nat) : Int)⟩
        = splitLoop ⟨a / 10, b * 10 + a % 10, -(k : Int)⟩ := by
      unfold splitLoop
      rw [whileLoop_of_true _ _ _ _ _ hc]
      simp only [splitLoop.body, hm, hi]
    rw [hstep, ih (a / 10) (b * 10 + a % 10) (j + 1) (push_lt a b j hb) (by omega), revAcc,
      Nat.div_div_eq_div_mul, pow_succ']

/-- The loop `for sig != 0` reverses the digits of `sig` onto `dSig` and counts
them in the exponent. -/
theorem reverseLoop_eq (k : Nat) :
    ∀ (a b j : Nat) (x : Int), a < 10 ^ k → b < 10 ^ j → j + k ≤ 38 →
      -1000 ≤ x - (k : Int) → x ≤ 0 →
      ∃ m, m ≤ k ∧ a < 10 ^ m ∧ reverseLoop ⟨a, b, x⟩ = ⟨0, revAcc m a b, x - (m : Int)⟩ := by
  induction k with
  | zero =>
    intro a b j x ha _ _ _ _
    have h0 : a = 0 := by simpa using ha
    subst h0
    exact ⟨0, le_refl 0, by norm_num, by simpa [revAcc] using reverseLoop_done b x⟩
  | succ k ih =>
    intro a b j x ha hb hj hx1 hx2
    by_cases h0 : a = 0
    · subst h0
      exact ⟨0, Nat.zero_le _, by norm_num, by simpa [revAcc] using reverseLoop_done b x⟩
    · have hc : reverseLoop.cond ⟨a, b, x⟩ = true := by
        simpa [reverseLoop.cond] using h0
      have hi : int16 (x - 1) = x - 1 := int16_of_range _ (by omega) (by omega)
      have hm := moveDigit_eq a b j hb (by omega)
      have hstep : reverseLoop ⟨a, b, x⟩ = reverseLoop ⟨a / 10, b * 10 + a % 10, x - 1⟩ := by
        unfold reverseLoop
        rw [whileLoop_of_true _ _ _ _ _ hc]
        simp only [reverseLoop.body, hm, hi]
      have ha1 : a / 10 < 10 ^ k := by
        rw [pow_succ] at ha
        omega
      obtain ⟨m, hm1, hm2, hm3⟩ := ih (a / 10) (b * 10 + a % 10) (j + 1) (x - 1) ha1
        (push_lt a b j hb) (by omega) (by omega) (by omega)
      refine ⟨m + 1, by omega, ?_, ?_⟩
      · rw [pow_succ]
        omega
      · rw [hstep, hm3, revAcc]
        congr 1
        push_cast
        ring

/-- The loop `for exp > 0` multiplies `dSigInt` by `10 ^ exp` when the product
fits in 64 bits. -/
theorem scaleLoop_eq (k : Nat) :
    ∀ n : Nat, n * 10 ^ k < 2 ^ 64 → k ≤ 32767 →
      scaleLoop ⟨n, (k : Int)⟩ = ⟨n * 10 ^ k, 0⟩ := by
  induction k with
  | zero =>
    intro n _ _
    simpa using scaleLoop_done n 0 (le_refl 0)
  | succ k ih =>
    intro n hn hk
    have hc : scaleLoop.cond ⟨n, ((k + 1 : Nat) : Int)⟩ = true := by
      simp only [scaleLoop.cond, decide_eq_true_eq]
      omega
    have hi : int16 (((k + 1 : Nat) : Int) - 1) = (k : Int) := by
      rw [int16_of_range _ (by omega) (by omega)]
      omega
    have hn2 : n * 10 * 10 ^ k < 2 ^ 64 := by
      rw [pow_succ'] at hn
      rwa [Nat.mul_assoc]
    have hn1 : n * 10 < 2 ^ 64 :=
      lt_of_le_of_lt (Nat.le_mul_of_pos_right _ (pow_pos (by norm_num) k)) hn2
    have hstep : scaleLoop ⟨n, ((k + 1 : Nat) : Int)⟩ = scaleLoop ⟨n * 10, (k : Int)⟩ := by
      unfold scaleLoop
      rw [whileLoop_of_true _ _ _ _ _ hc]
      simp only [scaleLoop.body, hi, uint, Nat.mod_eq_of_lt hn1]
    rw [hstep, ih (n * 10) hn2 (by omega), pow_succ']
    congr 1
    ring

theorem uint_word_zero (x : Nat) (h : x < 2 ^ 64) : uint (word x 0) = x := by
  simp only [uint, word]
  omega

/-- The split on a negative exponent `-k`: the integer part is the quotient by
`10 ^ k`, and the fraction `dSig * 10 ^ dExp` is the remainder over `10 ^ k`,
with its trailing zeros removed. -/
theorem split_neg (s k : Nat) (hk : k ≤ 38) (hfit : s / 10 ^ k < 2 ^ 64) :
    (splitInteger s (-(k : Int))).1 = s / 10 ^ k ∧
    ∃ m, m ≤ k ∧ (splitFraction (splitInteger s (-(k : Int))).2).2 = -(m : Int) ∧
      (splitFraction (splitInteger s (-(k : Int))).2).1 * 10 ^ (k - m) = s % 10 ^ k := by
  have h1 := splitLoop_eq k s 0 0 (by norm_num) (by omega)
  have hI : splitInteger s (-(k : Int)) = (s / 10 ^ k, revAcc k s 0) := by
    simp only [splitInteger, h1, uint_word_zero _ hfit, scaleLoop_done _ 0 (le_refl 0)]
  have hR : revAcc k s 0 < 10 ^ k := by
    simpa using revAcc_lt k s 0 0 (by norm_num)
  obtain ⟨m, hm1, hm2, hm3⟩ := reverseLoop_eq k (revAcc k s 0) 0 0 0 hR (by norm_num)
    (by omega) (by omega) (le_refl 0)
  refine ⟨by rw [hI], m, hm1, ?_, ?_⟩
  · simp only [hI, splitFraction, hm3]
    omega
  · have hpad := revAcc_pad m (k - m) (revAcc k s 0) hm2
    have hrr := revAcc_revAcc k 0 s 0 (by norm_num)
    rw [show m + (k - m) = k by omega] at hpad
    simp only [Nat.add_zero, pow_zero, Nat.mul_one, revAcc] at hrr
    simp only [hI, splitFraction, hm3]
    rw [← hpad, hrr]

/-- The split on a non-negative exponent `k`: the integer part is
`s * 10 ^ k` and there is no fraction. -/
theorem split_nonneg (s k : Nat) (hfit : s * 10 ^ k < 2 ^ 64) (hk : k ≤ 32767) :
    splitInteger s (k : Int) = (s * 10 ^ k, 0) := by
  have hs : s < 2 ^ 64 :=
    lt_of_le_of_lt (Nat.le_mul_of_pos_right _ (pow_pos (by norm_num) k)) hfit
  simp only [splitInteger, splitLoop_done s 0 (k : Int) (by omega), uint_word_zero _ hs,
    scaleLoop_eq k s hfit hk]


/-- The rational value `s * 10 ^ (-k)` lies between the quotient of `s` by
`10 ^ k` and its successor. -/
theorem floor_neg_exp (s k : Nat) :
    ⌊(s : ℚ) * 10 ^ (-(k : Int))⌋ = ((s / 10 ^ k : Nat) : Int) := by
  have hP : (0 : ℚ) < 10 ^ k := by positivity
  have hx : (s : ℚ) * 10 ^ (-(k : Int)) = (s : ℚ) / 10 ^ k := by
    rw [zpow_neg, zpow_natCast, div_eq_mul_inv]
  have hdm : ((10 ^ k * (s / 10 ^ k) + s % 10 ^ k : Nat) : ℚ) = (s : ℚ) := by
    rw [Nat.div_add_mod]
  have hr : ((s % 10 ^ k : Nat) : ℚ) < 10 ^ k := by
    exact_mod_cast Nat.mod_lt s (pow_pos (by norm_num) k)
  have hr0 : (0 : ℚ) ≤ ((s % 10 ^ k : Nat) : ℚ) := Nat.cast_nonneg _
  rw [hx, Int.floor_eq_iff, Int.cast_natCast]
  generalize s / 10 ^ k = q at *
  generalize s % 10 ^ k = r at *
  push_cast at hdm
  constructor
  · rw [le_div_iff₀ hP]
    nlinarith
  · rw [div_lt_iff₀ hP]
    nlinarith

/-- C14: for a finite non-zero `d` with significand `s < 10 ^ 34` and unbiased
exponent `e` that takes the split branch (`log10(s) + e >= 0`) and whose
integer part fits in 64 bits, the digit loops of `Exp10` and `Exp2` give the
integer part `dSigInt = floor(s * 10 ^ e)` and a pair `(dSig, dExp)` with
`dSig * 10 ^ dExp = s * 10 ^ e - dSigInt`, and `dSig = 0` exactly when
`s * 10 ^ e` is an integer. -/
theorem split_exact (H : Helpers) (hlog : H.Log10Estimates) (s : Nat) (e : Int)
    (hs0 : 0 < s) (hs : s < 10 ^ 34) (he2 : e ≤ 6111)
    (hsplit : H.log10 s + e ≥ 0) (hfit : ⌊(s : ℚ) * 10 ^ e⌋ < 2 ^ 64) :
    ((splitInteger s e).1 : Int) = ⌊(s : ℚ) * 10 ^ e⌋ ∧
    ((splitFraction (splitInteger s e).2).1 : ℚ)
        * 10 ^ (splitFraction (splitInteger s e).2).2
      = (s : ℚ) * 10 ^ e - ((splitInteger s e).1 : ℚ) ∧
    ((splitFraction (splitInteger s e).2).1 = 0 ↔ ∃ z : Int, (s : ℚ) * 10 ^ e = z) := by
  obtain ⟨hl0, hl1⟩ := log10_range H hlog s hs0 hs
  rcases le_or_lt 0 e with hpos | hneg
  · obtain ⟨k, rfl⟩ := Int.eq_ofNat_of_zero_le hpos
    have hx : (s : ℚ) * 10 ^ ((k : Nat) : Int) = ((s * 10 ^ k : Nat) : ℚ) := by
      rw [zpow_natCast]
      push_cast
      ring
    rw [hx, Int.floor_natCast] at hfit
    have hfitN : s * 10 ^ k < 2 ^ 64 := by exact_mod_cast hfit
    have hI := split_nonneg s k hfitN (by omega)
    rw [hx, Int.floor_natCast, hI]
    simp only [splitFraction_zero]
    refine ⟨trivial, by simp, ?_⟩
    exact ⟨fun _ => ⟨((s * 10 ^ k : Nat) : Int), by simp⟩, fun _ => trivial⟩
  · obtain ⟨k, hk⟩ : ∃ k : Nat, e = -(k : Int) := ⟨(-e).toNat, by omega⟩
    subst hk
    have hk38 : k ≤ 38 := by omega
    rw [floor_neg_exp] at hfit
    have hfitN : s / 10 ^ k < 2 ^ 64 := by exact_mod_cast hfit
    obtain ⟨hI, m, hm1, hm2, hm3⟩ := split_neg s k hk38 hfitN
    have hP : (10 : ℚ) ^ k ≠ 0 := by positivity
    have hPm : (10 : ℚ) ^ m ≠ 0 := by positivity
    have hdm : ((10 ^ k * (s / 10 ^ k) + s % 10 ^ k : Nat) : ℚ) = (s : ℚ) := by
      rw [Nat.div_add_mod]
    have hD : ((splitFraction (splitInteger s (-(k : Int))).2).1 : ℚ) * 10 ^ (k - m)
        = ((s % 10 ^ k : Nat) : ℚ) := by
      exact_mod_cast hm3
    have hpow : (10 : ℚ) ^ k = 10 ^ (k - m) * 10 ^ m := by
      rw [← pow_add]
      congr 1
      omega
    have hval : ((splitFraction (splitInteger s (-(k : Int))).2).1 : ℚ)
          * 10 ^ (splitFraction (splitInteger s (-(k : Int))).2).2
        = (s : ℚ) * 10 ^ (-(k : Int)) - ((splitInteger s (-(k : Int))).1 : ℚ) := by
      rw [hm2, hI, zpow_neg, zpow_neg, zpow_natCast, zpow_natCast]
      push_cast at hdm
      field_simp
      rw [← hdm, ← hD, hpow]
      ring
    refine ⟨?_, hval, ?_⟩
    · rw [floor_neg_exp, hI]
    · constructor
      · intro h0
        refine ⟨((s / 10 ^ k : Nat) : Int), ?_⟩
        rw [h0] at hval
        rw [hI] at hval
        simp only [Nat.cast_zero, zero_mul] at hval
        rw [Int.cast_natCast]
        linarith
      · rintro ⟨z, hz⟩
        have hfl : ⌊(s : ℚ) * 10 ^ (-(k : Int))⌋ = z := by
          rw [hz, Int.floor_intCast]
        rw [floor_neg_exp] at hfl
        have hq : ((splitInteger s (-(k : Int))).1 : ℚ) = (z : ℚ) := by
          rw [hI, ← hfl, Int.cast_natCast]
        rw [hz, hq, sub_self] at hval
        have hne : (10 : ℚ) ^ (splitFraction (splitInteger s (-(k : Int))).2).2 ≠ 0 := by
          positivity
        rcases mul_eq_zero.mp hval with h | h
        · exact_mod_cast h
        · exact absurd h hne

/-- Witness of C14 at `d = 123.456` (significand 123456, unbiased exponent -3). -/
theorem split_exact_witness :
    ((splitInteger 123456 (-3)).1 : Int) = ⌊((123456 : Nat) : ℚ) * 10 ^ (-3 : Int)⌋ ∧
    ((splitFraction (splitInteger 123456 (-3)).2).1 : ℚ)
        * 10 ^ (splitFraction (splitInteger 123456 (-3)).2).2
      = ((123456 : Nat) : ℚ) * 10 ^ (-3 : Int) - ((splitInteger 123456 (-3)).1 : ℚ) ∧
    ((splitFraction (splitInteger 123456 (-3)).2).1 = 0 ↔
      ∃ z : Int, ((123456 : Nat) : ℚ) * 10 ^ (-3 : Int) = z) :=
  split_exact sampleHelpers sampleHelpers_log10 123456 (-3) (by decide) (by norm_num)
    (by decide)
    (by
      have h : 3 ≤ Nat.log 10 123456 := Nat.le_log_of_pow_le (by norm_num) (by norm_num)
      simp only [sampleHelpers]
      omega)
    (by
      rw [show (-3 : Int) = -((3 : Nat) : Int) by rfl, floor_neg_exp]
      norm_num)

/-! ## The integer power of Exp2 -/

/-- A property kept by every pass of a loop holds when the loop ends, and the
condition is then false. -/
theorem whileLoop_invariant {σ : Type} (cond : σ → Bool) (body : σ → σ) (rank : σ → Nat)
    (dec : ∀ s, cond s = true → rank (body s) < rank s) (P : σ → Prop)
    (hstep : ∀ s, P s → cond s = true → P (body s)) :
    ∀ (k : Nat) (s : σ), rank s < k → P s →
      P (whileLoop cond body rank dec s) ∧ cond (whileLoop cond body rank dec s) = false := by
  intro k
  induction k with
  | zero => intro s h; omega
  | succ k ih =>
    intro s h hP
    cases hc : cond s with
    | true =>
      rw [whileLoop_of_true cond body rank dec s hc]
      exact ih (body s) (by have := dec s hc; omega) (hstep s hP hc)
    | false =>
      rw [whileLoop_of_false cond body rank dec s hc]
      exact ⟨hP, hc⟩

/-- Dividing the significand by `c` and multiplying the scale by `c` does not
raise the value, keeps it when the remainder is 0 and lowers it otherwise. -/
theorem div_scale (sig c E : Nat) (hE : 0 < E) :
    sig / c * (c * E) ≤ sig * E ∧
    (sig % c = 0 → sig / c * (c * E) = sig * E) ∧
    (sig % c ≠ 0 → sig / c * (c * E) < sig * E) := by
  have hdm := Nat.div_add_mod sig c
  have h1 : sig / c * (c * E) = (c * (sig / c)) * E := by ring
  refine ⟨?_, fun h0 => ?_, fun h0 => ?_⟩
  · rw [h1]
    exact Nat.mul_le_mul_right E (by omega)
  · rw [h1]
    congr 1
    omega
  · rw [h1]
    exact Nat.mul_lt_mul_of_pos_right (by omega) hE

theorem two_pow_lt_ten_pow (n : Nat) (hn : 1 ≤ n) : 2 ^ n < 10 ^ n :=
  Nat.pow_lt_pow_left (by norm_num) (by omega)

/-- A decimal exponent whose power of ten does not exceed `2 ^ n` is below `n`. -/
theorem exp_lt_of_pow_le (n e : Nat) (hn : 1 ≤ n) (h : 10 ^ e ≤ 2 ^ n) : e < n := by
  by_contra hcon
  have h1 : 10 ^ n ≤ 10 ^ e := Nat.pow_le_pow_right (by norm_num) (by omega)
  have h2 := two_pow_lt_ten_pow n hn
  omega

/-- One narrowing pass (divide by `10 ^ j`, add `j` to the exponent, set the
flag on a non-zero remainder) keeps `PowInv`. -/
theorem PowInv_narrow (n j : Nat) (p : PowState) (hn1 : 1 ≤ n) (hn : n ≤ 32767)
    (hP : PowInv n p) (hq : 10 ^ j ≤ p.sig) :
    PowInv n ⟨p.sig / 10 ^ j, int16 (p.expInt + (j : Int)),
      if p.sig % 10 ^ j ≠ 0 then 1 else p.trunc⟩ := by
  obtain ⟨h0, he, ht, hle, hiff⟩ := hP
  have hc : 0 < 10 ^ j := pow_pos (by norm_num) j
  have hE : 0 < 10 ^ p.expInt.toNat := pow_pos (by norm_num) _
  obtain ⟨d1, d2, d3⟩ := div_scale p.sig (10 ^ j) (10 ^ p.expInt.toNat) hE
  have hq0 : 0 < p.sig / 10 ^ j := Nat.div_pos hq hc
  have hpow : 10 ^ (p.expInt.toNat + j) = 10 ^ j * 10 ^ p.expInt.toNat := by
    rw [pow_add, Nat.mul_comm]
  have hnew : p.sig / 10 ^ j * 10 ^ (p.expInt.toNat + j) ≤ 2 ^ n := by
    rw [hpow]
    omega
  have hlt : p.expInt.toNat + j < n := by
    apply exp_lt_of_pow_le n _ hn1
    calc 10 ^ (p.expInt.toNat + j) = 1 * 10 ^ (p.expInt.toNat + j) := by ring
      _ ≤ p.sig / 10 ^ j * 10 ^ (p.expInt.toNat + j) := Nat.mul_le_mul_right _ hq0
      _ ≤ 2 ^ n := hnew
  have hi : int16 (p.expInt + (j : Int)) = p.expInt + (j : Int) :=
    int16_of_range _ (by omega) (by omega)
  have htn : (p.expInt + (j : Int)).toNat = p.expInt.toNat + j := by omega
  refine ⟨hq0, ?_, ?_, ?_, ?_⟩
  · simp only [hi]
    omega
  · simp only
    split
    · exact Or.inr rfl
    · exact ht
  · simp only [hi, htn]
    exact hnew
  · simp only [hi, htn, hpow]
    by_cases hr : p.sig % 10 ^ j = 0
    · simp only [hr, ne_eq, not_true_eq_false, if_false]
      rw [d2 hr]
      exact hiff
    · simp only [hr, ne_eq, not_false_eq_true, if_true]
      have := d3 hr
      constructor
      · intro h
        omega
      · intro h
        exact absurd h (by norm_num)

/-- After the divide by 10 of a 256-bit value with the top bit set, the top
word has 3 or 4 leading zeros, as many as bring the top bit back. -/
theorem leadingZeros_top (v : Nat) (h1 : 2 ^ 255 ≤ v) (h2 : v < 2 ^ 256) :
    (LeadingZeros64 (word (v / 10) 3) = 3 ∧ 2 ^ 252 ≤ v / 10) ∨
    (LeadingZeros64 (word (v / 10) 3) = 4 ∧ v / 10 < 2 ^ 252) := by
  have hw : word (v / 10) 3 = v / 10 / 2 ^ 192 := by
    simp only [word]
    omega
  have hwm : word (v / 10) 3 % 2 ^ 64 = v / 10 / 2 ^ 192 := by
    rw [hw]
    omega
  have hlo : 2 ^ 59 ≤ v / 10 / 2 ^ 192 := by omega
  have hhi : v / 10 / 2 ^ 192 < 2 ^ 61 := by omega
  have s61 : Nat.size (v / 10 / 2 ^ 192) ≤ 61 := Nat.size_le.mpr hhi
  have s60 : 59 < Nat.size (v / 10 / 2 ^ 192) := Nat.lt_size.mpr hlo
  simp only [LeadingZeros64, hwm]
  by_cases hc : v / 10 / 2 ^ 192 < 2 ^ 60
  · right
    have := Nat.size_le.mpr hc
    exact ⟨by omega, by omega⟩
  · left
    have : 60 < Nat.size (v / 10 / 2 ^ 192) := Nat.lt_size.mpr (by omega)
    exact ⟨by omega, by omega⟩

/-- One pass of the divide-by-10 / left-shift loop keeps `ShiftInv`, and its
left shift is lossless. -/
theorem ShiftInv_step (n : Nat) (s : ShiftState) (hn1 : 1 ≤ n) (hn : n ≤ 32767)
    (hI : ShiftInv n s) (hc : Exp2.shiftLoop.cond s = true) :
    ShiftInv n (Exp2.shiftLoop.body s) ∧ Exp2.shiftLoop.lossless s := by
  obtain ⟨h0, h256, he, ht, hb, hle, hiff⟩ := hI
  simp only [Exp2.shiftLoop.cond, Bool.and_eq_true, decide_eq_true_eq,
    Bool.not_eq_true'] at hc
  obtain ⟨hsh, hbr⟩ := hc
  obtain ⟨h255, _⟩ := hb hbr
  simp only [hbr, Bool.false_eq_true, if_false] at hle hiff
  have hq1 : (uint256.div10 s.sig).1 = s.sig / 10 := by
    simp only [uint256.div10, Nat.mod_eq_of_lt h256]
  have hq2 : (uint256.div10 s.sig).2 = s.sig % 10 := by
    simp only [uint256.div10, Nat.mod_eq_of_lt h256]
  have hE : 0 < 10 ^ s.expInt.toNat * 2 ^ s.shift := by positivity
  obtain ⟨d1, d2, d3⟩ := div_scale s.sig 10 (10 ^ s.expInt.toNat * 2 ^ s.shift) hE
  rw [Nat.mul_assoc] at hle hiff
  have hnewle : s.sig / 10 * (10 * (10 ^ s.expInt.toNat * 2 ^ s.shift)) ≤ 2 ^ n :=
    le_trans d1 hle
  have hq0 : 0 < s.sig / 10 := by omega
  have hlt : s.expInt.toNat + 1 < n := by
    apply exp_lt_of_pow_le n _ hn1
    calc 10 ^ (s.expInt.toNat + 1) = 1 * (10 * (10 ^ s.expInt.toNat * 1)) := by ring
      _ ≤ s.sig / 10 * (10 * (10 ^ s.expInt.toNat * 2 ^ s.shift)) :=
        Nat.mul_le_mul hq0 (Nat.mul_le_mul_left _ (Nat.mul_le_mul_left _ Nat.one_le_two_pow))
      _ ≤ 2 ^ n := hnewle
  have hi : int16 (s.expInt + 1) = s.expInt + 1 := int16_of_range _ (by omega) (by omega)
  have htn : (s.expInt + 1).toNat = s.expInt.toNat + 1 := by omega
  have htr : (if s.sig % 10 ≠ 0 then (1 : Int) else s.trunc) = 0 ∨
      (if s.sig % 10 ≠ 0 then (1 : Int) else s.trunc) = 1 := by
    split
    · exact Or.inr rfl
    · exact ht
  have hiffnew : s.sig / 10 * (10 * (10 ^ s.expInt.toNat * 2 ^ s.shift)) = 2 ^ n ↔
      (if s.sig % 10 ≠ 0 then (1 : Int) else s.trunc) = 0 := by
    by_cases hr : s.sig % 10 = 0
    · simp only [hr, ne_eq, not_true_eq_false, if_false]
      rw [d2 hr]
      exact hiff
    · simp only [hr, ne_eq, not_false_eq_true, if_true]
      have := d3 hr
      constructor
      · intro h
        omega
      · intro h
        exact absurd h (by norm_num)
  obtain ⟨z, hz, hzlo, hzhi⟩ : ∃ z, LeadingZeros64 (word (s.sig / 10) 3) = z ∧
      2 ^ 255 ≤ s.sig / 10 * 2 ^ z ∧ s.sig / 10 * 2 ^ z < 2 ^ 256 := by
    rcases leadingZeros_top s.sig h255 h256 with ⟨hz, hq⟩ | ⟨hz, hq⟩
    · exact ⟨3, hz, by omega, by omega⟩
    · exact ⟨4, hz, by omega, by omega⟩
  have hmin : s.sig / 10 * 2 ^ (min s.shift z) < 2 ^ 256 :=
    lt_of_le_of_lt (Nat.mul_le_mul_left _
      (Nat.pow_le_pow_right (by norm_num) (Nat.min_le_right _ _))) hzhi
  constructor
  · simp only [Exp2.shiftLoop.body, hq1, hq2, hz, hi]
    split
    · next hgt =>
      have hl : uint256.lsh (s.sig / 10) z = s.sig / 10 * 2 ^ z := by
        simp only [uint256.lsh, Nat.mod_eq_of_lt hzhi]
      have hp : 2 ^ s.shift = 2 ^ z * 2 ^ (s.shift - z) := by
        rw [← pow_add]
        congr 1
        omega
      have hprod : s.sig / 10 * 2 ^ z * 10 ^ (s.expInt.toNat + 1) * 2 ^ (s.shift - z)
          = s.sig / 10 * (10 * (10 ^ s.expInt.toNat * 2 ^ s.shift)) := by
        rw [hp, pow_succ]
        ring
      refine ⟨?_, ?_, ?_, htr, ?_, ?_, ?_⟩
      · simp only [hl]
        exact Nat.mul_pos hq0 (pow_pos (by norm_num) z)
      · simp only [hl]
        exact hzhi
      · simp only
        omega
      · intro _
        simp only [hl]
        exact ⟨hzlo, by omega⟩
      · simp only [hl, htn, Bool.false_eq_true, if_false, hprod]
        exact hnewle
      · simp only [hl, htn, Bool.false_eq_true, if_false, hprod]
        exact hiffnew
    · next hle2 =>
      have hms : min s.shift z = s.shift := by omega
      rw [hms] at hmin
      have hl : uint256.lsh (s.sig / 10) s.shift = s.sig / 10 * 2 ^ s.shift := by
        simp only [uint256.lsh, Nat.mod_eq_of_lt hmin]
      have hprod : s.sig / 10 * 2 ^ s.shift * 10 ^ (s.expInt.toNat + 1) * 2 ^ 0
          = s.sig / 10 * (10 * (10 ^ s.expInt.toNat * 2 ^ s.shift)) := by
        rw [pow_succ]
        ring
      refine ⟨?_, ?_, ?_, htr, ?_, ?_, ?_⟩
      · simp only [hl]
        exact Nat.mul_pos hq0 (pow_pos (by norm_num) _)
      · simp only [hl]
        exact hmin
      · simp only
        omega
      · intro h
        exact absurd h (by simp)
      · simp only [hl, htn, if_true, hprod]
        exact hnewle
      · simp only [hl, htn, if_true, hprod]
        exact hiffnew
  · simp only [Exp2.shiftLoop.lossless, hq1, hz, uint256.lsh, Nat.mod_eq_of_lt hmin]

theorem top_bit_value : (0x8000000000000000 * 2 ^ 192 : Nat) = 2 ^ 255 := by
  rw [show (0x8000000000000000 : Nat) = 2 ^ 63 by norm_num, ← pow_add]

theorem ShiftInv_init (n : Nat) (hn : 256 ≤ n) :
    ShiftInv n ⟨n - 255, 0x8000000000000000 * 2 ^ 192, 0, 0, false⟩ := by
  have hp : 2 ^ 255 * 2 ^ (n - 255) = 2 ^ n := by
    rw [← pow_add, show 255 + (n - 255) = n by omega]
  have h1 : (1 : Nat) ≤ n - 255 := by omega
  unfold ShiftInv
  simp only [top_bit_value, Int.toNat_zero, pow_zero, Nat.mul_one, Bool.false_eq_true,
    if_false, hp, le_refl, true_or, true_and, and_true, forall_const, h1, iff_true]
  constructor
  · exact pow_pos (by norm_num) 255
  · exact Nat.pow_lt_pow_right (by norm_num) (by norm_num)

/-- The divide-by-10 / left-shift loop keeps `ShiftInv` and ends with its
condition false. -/
theorem shiftLoop_inv (n : Nat) (hn1 : 1 ≤ n) (hn : n ≤ 32767) (s : ShiftState)
    (hs : ShiftInv n s) :
    ShiftInv n (Exp2.shiftLoop s) ∧ Exp2.shiftLoop.cond (Exp2.shiftLoop s) = false := by
  unfold Exp2.shiftLoop
  exact whileLoop_invariant _ _ _ _ (ShiftInv n)
    (fun s hs hc => (ShiftInv_step n s hn1 hn hs hc).1) _ s (Nat.lt_succ_self _) hs

/-- The divide-by-10 / left-shift loop ends by its `break` with a 256-bit
value that satisfies `PowInv`. -/
theorem shiftLoop_spec (n : Nat) (hn256 : 256 ≤ n) (hn : n ≤ 32767) :
    PowInv n (Exp2.widePower n) ∧ (Exp2.widePower n).sig < 2 ^ 256 := by
  have hw : Exp2.widePower n =
      ⟨(Exp2.shiftLoop ⟨n - 255, 0x8000000000000000 * 2 ^ 192, 0, 0, false⟩).sig,
        (Exp2.shiftLoop ⟨n - 255, 0x8000000000000000 * 2 ^ 192, 0, 0, false⟩).expInt,
        (Exp2.shiftLoop ⟨n - 255, 0x8000000000000000 * 2 ^ 192, 0, 0, false⟩).trunc⟩ := by
    simp only [Exp2.widePower, show ¬ n < 192 by omega, show ¬ n < 256 by omega, if_false]
  have hinv := shiftLoop_inv n (by omega) hn _ (ShiftInv_init n hn256)
  rw [hw]
  generalize Exp2.shiftLoop ⟨n - 255, 0x8000000000000000 * 2 ^ 192, 0, 0, false⟩ = r at hinv
  obtain ⟨⟨h0, h256, he, ht, hb, hle, hiff⟩, hc⟩ := hinv
  have hbr : r.broke = true := by
    by_contra hcon
    have hf : r.broke = false := by simpa using hcon
    have := (hb hf).2
    simp only [Exp2.shiftLoop.cond, hf, Bool.not_false, Bool.and_true,
      decide_eq_false_iff_not] at hc
    omega
  simp only [hbr, if_true, pow_zero, Nat.mul_one] at hle hiff
  exact ⟨⟨h0, he, ht, hle, hiff⟩, h256⟩

/-- For `128 <= shift < 256` the single left shift `1 << (shift - 128)` or
`1 << (shift - 192)` discards nothing: the 256-bit value is `2 ^ shift`. -/
theorem widePower_lt_256 (n : Nat) (h1 : 128 ≤ n) (h2 : n < 256) :
    Exp2.widePower n = ⟨2 ^ n, 0, 0⟩ := by
  unfold Exp2.widePower
  by_cases h192 : n < 192
  · have hlt : 2 ^ (n - 128) < 2 ^ 64 := Nat.pow_lt_pow_right (by norm_num) (by omega)
    have hp : 2 ^ (n - 128) * 2 ^ 128 = 2 ^ n := by
      rw [← pow_add]
      congr 1
      omega
    simp only [h192, if_true, uint, Nat.shiftLeft_eq, Nat.one_mul]
    rw [Nat.mod_eq_of_lt hlt, hp]
  · have hlt : 2 ^ (n - 192) < 2 ^ 64 := Nat.pow_lt_pow_right (by norm_num) (by omega)
    have hp : 2 ^ (n - 192) * 2 ^ 192 = 2 ^ n := by
      rw [← pow_add]
      congr 1
      omega
    simp only [h192, h2, if_true, if_false, uint, Nat.shiftLeft_eq, Nat.one_mul]
    rw [Nat.mod_eq_of_lt hlt, hp]

theorem PowInv_exact (n : Nat) : PowInv n ⟨2 ^ n, 0, 0⟩ := by
  refine ⟨pow_pos (by norm_num) n, le_refl 0, Or.inl rfl, ?_, ?_⟩
  · simp
  · simp

/-- The 256-bit value before narrowing satisfies `PowInv`. -/
theorem widePower_spec (n : Nat) (h1 : 128 ≤ n) (hn : n ≤ 32767) :
    PowInv n (Exp2.widePower n) ∧ (Exp2.widePower n).sig < 2 ^ 256 := by
  by_cases h256 : n < 256
  · rw [widePower_lt_256 n h1 h256]
    exact ⟨PowInv_exact n, Nat.pow_lt_pow_right (by norm_num) h256⟩
  · exact shiftLoop_spec n (by omega) hn

/-- The div1e19 loop keeps `PowInv` and ends with a value below `2 ^ 192`. -/
theorem narrow1e19_spec (n : Nat) (hn1 : 1 ≤ n) (hn : n ≤ 32767) (p : PowState)
    (hP : PowInv n p) (h : p.sig < 2 ^ 256) :
    PowInv n (Exp2.narrow1e19 p) ∧ (Exp2.narrow1e19 p).sig < 2 ^ 192 := by
  have hstep : ∀ s : PowState, (PowInv n s ∧ s.sig < 2 ^ 256) →
      Exp2.narrow1e19.cond s = true →
      (PowInv n (Exp2.narrow1e19.body s) ∧ (Exp2.narrow1e19.body s).sig < 2 ^ 256) := by
    intro s hs hc
    simp only [Exp2.narrow1e19.cond, decide_eq_true_eq, word] at hc
    have h19 := PowInv_narrow n 19 s hn1 hn hs.1 (by omega)
    simp only [Nat.cast_ofNat] at h19
    refine ⟨h19, ?_⟩
    have := hs.2
    simp only [Exp2.narrow1e19.body, uint256.div1e19]
    omega
  have hinv : (PowInv n (Exp2.narrow1e19 p) ∧ (Exp2.narrow1e19 p).sig < 2 ^ 256) ∧
      Exp2.narrow1e19.cond (Exp2.narrow1e19 p) = false := by
    unfold Exp2.narrow1e19
    exact whileLoop_invariant _ _ _ _ (fun s => PowInv n s ∧ s.sig < 2 ^ 256) hstep _ p
      (Nat.lt_succ_self _) ⟨hP, h⟩
  obtain ⟨⟨h1, h2⟩, hc⟩ := hinv
  refine ⟨h1, ?_⟩
  simp only [Exp2.narrow1e19.cond, decide_eq_false_iff_not, word] at hc
  omega

/-- The div10000 loop keeps `PowInv` and a value below `2 ^ 192`. -/
theorem narrow10000_spec (n : Nat) (hn1 : 1 ≤ n) (hn : n ≤ 32767) (p : PowState)
    (hP : PowInv n p) (h : p.sig < 2 ^ 192) :
    PowInv n (Exp2.narrow10000 p) ∧ (Exp2.narrow10000 p).sig < 2 ^ 192 := by
  have hstep : ∀ s : PowState, (PowInv n s ∧ s.sig < 2 ^ 192) →
      Exp2.narrow10000.cond s = true →
      (PowInv n (Exp2.narrow10000.body s) ∧ (Exp2.narrow10000.body s).sig < 2 ^ 192) := by
    intro s hs hc
    simp only [Exp2.narrow10000.cond, decide_eq_true_eq, word] at hc
    have h4 := PowInv_narrow n 4 s hn1 hn hs.1 (by omega)
    simp only [Nat.cast_ofNat] at h4
    refine ⟨h4, ?_⟩
    have := hs.2
    simp only [Exp2.narrow10000.body, uint192.div10000]
    omega
  have hinv : (PowInv n (Exp2.narrow10000 p) ∧ (Exp2.narrow10000 p).sig < 2 ^ 192) ∧
      Exp2.narrow10000.cond (Exp2.narrow10000 p) = false := by
    unfold Exp2.narrow10000
    exact whileLoop_invariant _ _ _ _ (fun s => PowInv n s ∧ s.sig < 2 ^ 192) hstep _ p
      (Nat.lt_succ_self _) ⟨hP, h⟩
  exact hinv.1

/-- The div10 loop keeps `PowInv` and ends with a value below `2 ^ 128`. -/
theorem narrow10_spec (n : Nat) (hn1 : 1 ≤ n) (hn : n ≤ 32767) (p : PowState)
    (hP : PowInv n p) (h : p.sig < 2 ^ 192) :
    PowInv n (Exp2.narrow10 p) ∧ (Exp2.narrow10 p).sig < 2 ^ 128 := by
  have hstep : ∀ s : PowState, (PowInv n s ∧ s.sig < 2 ^ 192) →
      Exp2.narrow10.cond s = true →
      (PowInv n (Exp2.narrow10.body s) ∧ (Exp2.narrow10.body s).sig < 2 ^ 192) := by
    intro s hs hc
    simp only [Exp2.narrow10.cond, decide_eq_true_eq, word] at hc
    have h1 := PowInv_narrow n 1 s hn1 hn hs.1 (by omega)
    simp only [Nat.cast_ofNat, pow_one] at h1
    refine ⟨h1, ?_⟩
    have := hs.2
    simp only [Exp2.narrow10.body, uint192.div10]
    omega
  have hinv : (PowInv n (Exp2.narrow10 p) ∧ (Exp2.narrow10 p).sig < 2 ^ 192) ∧
      Exp2.narrow10.cond (Exp2.narrow10 p) = false := by
    unfold Exp2.narrow10
    exact whileLoop_invariant _ _ _ _ (fun s => PowInv n s ∧ s.sig < 2 ^ 192) hstep _ p
      (Nat.lt_succ_self _) ⟨hP, h⟩
  obtain ⟨⟨h1, h2⟩, hc⟩ := hinv
  refine ⟨h1, ?_⟩
  simp only [Exp2.narrow10.cond, decide_eq_false_iff_not, word] at hc
  omega

/-- From `shift >= 128` on, the integer power is the 256-bit value narrowed by
the three division loops. -/
theorem intPower_ge_128 (n : Nat) (h : 128 ≤ n) :
    Exp2.intPower n =
      ⟨(Exp2.narrow10 (Exp2.narrow10000
          ⟨(Exp2.narrow1e19 (Exp2.widePower n)).sig % 2 ^ 192,
            (Exp2.narrow1e19 (Exp2.widePower n)).expInt,
            (Exp2.narrow1e19 (Exp2.widePower n)).trunc⟩)).sig % 2 ^ 128,
        (Exp2.narrow10 (Exp2.narrow10000
          ⟨(Exp2.narrow1e19 (Exp2.widePower n)).sig % 2 ^ 192,
            (Exp2.narrow1e19 (Exp2.widePower n)).expInt,
            (Exp2.narrow1e19 (Exp2.widePower n)).trunc⟩)).expInt,
        (Exp2.narrow10 (Exp2.narrow10000
          ⟨(Exp2.narrow1e19 (Exp2.widePower n)).sig % 2 ^ 192,
            (Exp2.narrow1e19 (Exp2.widePower n)).expInt,
            (Exp2.narrow1e19 (Exp2.widePower n)).trunc⟩)).trunc⟩ := by
  unfold Exp2.intPower
  simp only [show ¬ n < 64 by omega, show ¬ n < 128 by omega, if_false]

/-- The integer power of `Exp2` satisfies `PowInv` and fits in 128 bits. -/
theorem intPower_inv (n : Nat) (hn1 : 1 ≤ n) (hn : n ≤ 32767) :
    PowInv n (Exp2.intPower n) ∧ (Exp2.intPower n).sig < 2 ^ 128 := by
  by_cases h128 : n < 128
  · rw [intPower_lt_128 n h128]
    exact ⟨PowInv_exact n, Nat.pow_lt_pow_right (by norm_num) h128⟩
  · obtain ⟨w1, w2⟩ := widePower_spec n (by omega) hn
    obtain ⟨a1, a2⟩ := narrow1e19_spec n hn1 hn _ w1 w2
    have hm : (Exp2.narrow1e19 (Exp2.widePower n)).sig % 2 ^ 192
        = (Exp2.narrow1e19 (Exp2.widePower n)).sig := Nat.mod_eq_of_lt a2
    rw [intPower_ge_128 n (by omega), hm]
    obtain ⟨b1, b2⟩ := narrow10000_spec n hn1 hn (Exp2.narrow1e19 (Exp2.widePower n)) a1 a2
    obtain ⟨c1, c2⟩ := narrow10_spec n hn1 hn _ b1 b2
    have hm2 : (Exp2.narrow10 (Exp2.narrow10000 (Exp2.narrow1e19 (Exp2.widePower n)))).sig
        % 2 ^ 128
        = (Exp2.narrow10 (Exp2.narrow10000 (Exp2.narrow1e19 (Exp2.widePower n)))).sig :=
      Nat.mod_eq_of_lt c2
    rw [hm2]
    exact ⟨c1, c2⟩

/-- While the divide-by-10 / left-shift loop runs, its state satisfies
`ShiftInv`. -/
theorem shiftLoop_trace (n : Nat) (hn256 : 256 ≤ n) (hn : n ≤ 32767) (j : Nat) :
    (∀ i, i ≤ j → Exp2.shiftLoop.cond (Exp2.shiftLoop.body^[i]
        ⟨n - 255, 0x8000000000000000 * 2 ^ 192, 0, 0, false⟩) = true) →
      ShiftInv n (Exp2.shiftLoop.body^[j]
        ⟨n - 255, 0x8000000000000000 * 2 ^ 192, 0, 0, false⟩) := by
  induction j with
  | zero =>
    intro _
    exact ShiftInv_init n hn256
  | succ j ih =>
    intro h
    have hj := ih (fun i hi => h i (by omega))
    rw [Function.iterate_succ_apply']
    exact (ShiftInv_step n _ (by omega) hn hj (h j (by omega))).1

/-- C15: for every `n` with `1 <= n <= exponentBias + maxDigits`, the triple
`(sigInt, expInt, trunc)` that `Exp2` builds from `shift = n` has
`0 < sigInt < 2 ^ 128`, `expInt >= 0`, `trunc` 0 or 1,
`sigInt * 10 ^ expInt <= 2 ^ n`, with equality exactly when `trunc = 0`; for
`n < 128` it is `(2 ^ n, 0, 0)`.  No left shift discards a set bit: for
`128 <= n < 256` the 256-bit value before narrowing is `2 ^ n`, and for
`n >= 256` every pass of the divide-by-10 / left-shift loop shifts
losslessly. -/
theorem Exp2_intPower_spec (H : Helpers) (hmd : exponentBias + H.maxDigits ≤ 32767) (n : Nat)
    (h1 : 1 ≤ n) (h2 : n ≤ exponentBias + H.maxDigits) :
    0 < (Exp2.intPower n).sig ∧ (Exp2.intPower n).sig < 2 ^ 128 ∧
    0 ≤ (Exp2.intPower n).expInt ∧
    ((Exp2.intPower n).trunc = 0 ∨ (Exp2.intPower n).trunc = 1) ∧
    (Exp2.intPower n).sig * 10 ^ (Exp2.intPower n).expInt.toNat ≤ 2 ^ n ∧
    ((Exp2.intPower n).sig * 10 ^ (Exp2.intPower n).expInt.toNat = 2 ^ n ↔
      (Exp2.intPower n).trunc = 0) ∧
    (n < 128 → Exp2.intPower n = ⟨2 ^ n, 0, 0⟩) ∧
    (128 ≤ n → n < 256 → Exp2.widePower n = ⟨2 ^ n, 0, 0⟩) ∧
    (256 ≤ n → ∀ j,
      (∀ i, i ≤ j → Exp2.shiftLoop.cond (Exp2.shiftLoop.body^[i]
        ⟨n - 255, 0x8000000000000000 * 2 ^ 192, 0, 0, false⟩) = true) →
      Exp2.shiftLoop.lossless (Exp2.shiftLoop.body^[j]
        ⟨n - 255, 0x8000000000000000 * 2 ^ 192, 0, 0, false⟩)) := by
  have hn : n ≤ 32767 := by omega
  obtain ⟨⟨p1, p2, p3, p4, p5⟩, hlt⟩ := intPower_inv n h1 hn
  refine ⟨p1, hlt, p2, p3, p4, p5, intPower_lt_128 n, widePower_lt_256 n, ?_⟩
  intro h256 j hj
  exact (ShiftInv_step n _ h1 hn (shiftLoop_trace n h256 hn j hj) (hj j (le_refl j))).2

/-- Witness of C15 at `n = 300`. -/
theorem Exp2_intPower_spec_witness :
    0 < (Exp2.intPower 300).sig ∧ (Exp2.intPower 300).sig < 2 ^ 128 ∧
    0 ≤ (Exp2.intPower 300).expInt ∧
    ((Exp2.intPower 300).trunc = 0 ∨ (Exp2.intPower 300).trunc = 1) ∧
    (Exp2.intPower 300).sig * 10 ^ (Exp2.intPower 300).expInt.toNat ≤ 2 ^ 300 ∧
    ((Exp2.intPower 300).sig * 10 ^ (Exp2.intPower 300).expInt.toNat = 2 ^ 300 ↔
      (Exp2.intPower 300).trunc = 0) ∧
    (300 < 128 → Exp2.intPower 300 = ⟨2 ^ 300, 0, 0⟩) ∧
    (128 ≤ 300 → 300 < 256 → Exp2.widePower 300 = ⟨2 ^ 300, 0, 0⟩) ∧
    (256 ≤ 300 → ∀ j,
      (∀ i, i ≤ j → Exp2.shiftLoop.cond (Exp2.shiftLoop.body^[i]
        ⟨300 - 255, 0x8000000000000000 * 2 ^ 192, 0, 0, false⟩) = true) →
      Exp2.shiftLoop.lossless (Exp2.shiftLoop.body^[j]
        ⟨300 - 255, 0x8000000000000000 * 2 ^ 192, 0, 0, false⟩)) :=
  Exp2_intPower_spec sampleHelpers (by decide) 300 (by decide) (by decide)

/-! ## The truncation flag in Exp2 -/

theorem splitInteger_1285 : splitInteger 1285 (-1) = (128, 5) := by
  have h := splitLoop_eq 1 1285 0 0 (by norm_num) (by norm_num)
  simp only [Nat.cast_one] at h
  simp only [splitInteger, h, scaleLoop_done _ 0 (le_refl 0)]
  decide

theorem splitFraction_5 : splitFraction 5 = (5, -1) := by
  unfold splitFraction reverseLoop
  simp only
  rw [whileLoop_of_true _ _ _ _ _ (by decide), whileLoop_of_false _ _ _ _ _ (by decide)]
  decide

theorem narrow1e19_done (p : PowState) (h : word p.sig 3 = 0) : Exp2.narrow1e19 p = p := by
  unfold Exp2.narrow1e19
  apply whileLoop_of_false
  simp [Exp2.narrow1e19.cond, h]

theorem narrow10000_done (p : PowState) (h : word p.sig 2 < 0xffff) :
    Exp2.narrow10000 p = p := by
  unfold Exp2.narrow10000
  apply whileLoop_of_false
  simpa [Exp2.narrow10000.cond] using h

theorem narrow10_done (p : PowState) (h : word p.sig 2 = 0) : Exp2.narrow10 p = p := by
  unfold Exp2.narrow10
  apply whileLoop_of_false
  simp [Exp2.narrow10.cond, h]

theorem narrow10_step (p : PowState) (h : word p.sig 2 > 0) :
    Exp2.narrow10 p = Exp2.narrow10 (Exp2.narrow10.body p) := by
  unfold Exp2.narrow10
  apply whileLoop_of_true
  simpa [Exp2.narrow10.cond] using h

theorem narrow_128_loops :
    Exp2.narrow10 (Exp2.narrow10000 ⟨2 ^ 128, 0, 0⟩)
      = Exp2.narrow10.body ⟨2 ^ 128, 0, 0⟩ := by
  have w2 : word (2 ^ 128) 2 < 0xffff := by norm_num [word]
  have w2b : word (2 ^ 128) 2 > 0 := by norm_num [word]
  have w2c : word (2 ^ 128 / 10) 2 = 0 := by norm_num [word]
  rw [narrow10000_done ⟨2 ^ 128, 0, 0⟩ w2, narrow10_step ⟨2 ^ 128, 0, 0⟩ w2b,
    narrow10_done (Exp2.narrow10.body ⟨2 ^ 128, 0, 0⟩) w2c]

theorem narrow_128_body :
    Exp2.narrow10.body ⟨2 ^ 128, 0, 0⟩
      = ⟨34028236692093846346337460743176821145, 1, 1⟩ := by
  simp only [Exp2.narrow10.body, uint192.div10]
  norm_num [int16]

/-- Building `2 ^ 128` divides once by 10 with remainder 6 and sets the
truncation flag. -/
theorem intPower_128 :
    Exp2.intPower 128 = ⟨34028236692093846346337460743176821145, 1, 1⟩ := by
  have w3 : word (2 ^ 128) 3 = 0 := by norm_num [word]
  have hm : 2 ^ 128 % 2 ^ 192 = 2 ^ 128 := by norm_num
  simp only [intPower_ge_128 128 (le_refl 128),
    widePower_lt_256 128 (le_refl 128) (by norm_num), narrow1e19_done ⟨2 ^ 128, 0, 0⟩ w3, hm,
    narrow_128_loops, narrow_128_body]
  norm_num

/-- C12, the code where it departs from the claim: on `d = 128.5`
(significand 1285, unbiased exponent -1) building the integer power `2 ^ 128`
sets the truncation flag to 1, yet the multiplication by `ln 2` that follows is
given the flag 0 and its result replaces the flag: the flag set by the integer
power reaches neither `epow`, nor the product with the integer power, nor the
rest of the chain.  On `d = 128` (no fractional part) the flag 1 is the one
that goes on. -/
theorem Exp2_fraction_resets_flag (H : Helpers) (hlog : H.Log10Estimates) :
    (Exp2.intPower 128).trunc = 1 ∧
    Exp2.staged H (.regularForm false 1285 6175) =
      (if (H.epow (H.mul ⟨5, -1⟩ H.ln2 0).1 (int16 (H.log10 1285))
            (H.mul ⟨5, -1⟩ H.ln2 0).2).1.exp > maxUnbiasedExponent + 39 then
        .done (inf false)
      else
        Exp2.tail H (.regularForm false 1285 6175)
          (H.mul ⟨34028236692093846346337460743176821145, 1⟩
            (H.epow (H.mul ⟨5, -1⟩ H.ln2 0).1 (int16 (H.log10 1285))
              (H.mul ⟨5, -1⟩ H.ln2 0).2).1
            (H.epow (H.mul ⟨5, -1⟩ H.ln2 0).1 (int16 (H.log10 1285))
              (H.mul ⟨5, -1⟩ H.ln2 0).2).2).1
          (H.mul ⟨34028236692093846346337460743176821145, 1⟩
            (H.epow (H.mul ⟨5, -1⟩ H.ln2 0).1 (int16 (H.log10 1285))
              (H.mul ⟨5, -1⟩ H.ln2 0).2).1
            (H.epow (H.mul ⟨5, -1⟩ H.ln2 0).1 (int16 (H.log10 1285))
              (H.mul ⟨5, -1⟩ H.ln2 0).2).2).2) ∧
    Exp2.staged H (.regularForm false 128 6176) =
      Exp2.tail H (.regularForm false 128 6176)
        ⟨34028236692093846346337460743176821145, 1⟩ 1 := by
  refine ⟨by rw [intPower_128], ?_, ?_⟩
  · obtain ⟨hl0, hl4⟩ := log10_small H hlog 1285 (by norm_num) (by norm_num)
    have hl3 : 3 ≤ H.log10 1285 := by
      have h := (hlog 1285 (by norm_num)).1
      have h3 : 3 ≤ Nat.log 10 1285 := Nat.le_log_of_pow_le (by norm_num) (by norm_num)
      omega
    have hsp := expSpecial_regular false 1285 6175 (by norm_num)
    have hd : int16 ((6175 : Int) - (exponentBias : Int)) = -1 := by
      simp [int16, exponentBias]
    have hc1 : ¬ ((-1 : Int) > 5 - H.log10 1285) := by omega
    have hc2 : H.log10 1285 + -1 ≥ 0 := by omega
    have hgt : ¬ (128 > exponentBias + H.maxDigits) := by
      simp only [exponentBias]
      omega
    simp only [Exp2.staged, hsp, Decimal.decompose, hd, hc1, hc2, if_false, decide_True,
      if_true, splitInteger_1285, splitFraction_5, hgt, and_false, ne_eq,
      OfNat.ofNat_ne_zero, not_false_eq_true, intPower_128, overflowExit, Decimal.Signbit,
      Bool.false_eq_true]
  · obtain ⟨hl0, hl4⟩ := log10_small H hlog 128 (by norm_num) (by norm_num)
    have hsp := expSpecial_regular false 128 6176 (by norm_num)
    have hd : int16 ((6176 : Int) - (exponentBias : Int)) = 0 := by
      simp [int16, exponentBias]
    have hw : uint (word 128 0) = 128 := uint_word_zero 128 (by norm_num)
    have hc1 : ¬ ((0 : Int) > 5 - H.log10 128) := by omega
    have hc2 : H.log10 128 + 0 ≥ 0 := by omega
    have hgt : ¬ (128 > exponentBias + H.maxDigits) := by
      simp only [exponentBias]
      omega
    simp only [Exp2.staged, hsp, Decimal.decompose, hd, hc1, hc2, if_false, decide_True,
      if_true, splitInteger_exp_zero, splitFraction_zero, hw, hgt, and_false, ne_eq,
      OfNat.ofNat_ne_zero, not_false_eq_true, not_true_eq_false, intPower_128]

/-- Witness of the evaluation for C12: with helpers that return the flag they
are given, `Exp2(128.5)` reaches the rounding engine with flag 0 and
`Exp2(128)` with flag 1. -/
theorem Exp2_fraction_resets_flag_witness :
    (Exp2.intPower 128).trunc = 1 ∧
    Exp2.staged sampleHelpers (.regularForm false 1285 6175)
      = .round false ⟨34028236692093846346337460743176821145, 1⟩ 0 ∧
    Exp2.staged sampleHelpers (.regularForm false 128 6176)
      = .round false ⟨34028236692093846346337460743176821145, 1⟩ 1 := by
  obtain ⟨h1, h2, h3⟩ := Exp2_fraction_resets_flag sampleHelpers sampleHelpers_log10
  refine ⟨h1, ?_, ?_⟩
  · rw [h2]
    simp [sampleHelpers, Exp2.tail, reciprocal, Decimal.Signbit, maxUnbiasedExponent]
  · rw [h3]
    simp [sampleHelpers, Exp2.tail, reciprocal, Decimal.Signbit, maxUnbiasedExponent]

end decimal128
